import Mathlib

set_option maxRecDepth 8000
set_option linter.unnecessarySeqFocus false

/-!
Shallow embedding of the SPI-flash probe firmware (probe.c) together with a
model of the external SPI NOR flash chip and the serial transport.

The firmware side (hex parser, command handlers, dispatcher, bulk-dump
engine) is translated function by function from probe.c.  The flash chip
itself is external hardware; it is modelled from the spec's data model
(StatusRegister with WIP = bit 0 and WEL = bit 1, JEDEC opcodes 0x9F READ
ID, 0x03 READ, 0x05 READ STATUS, 0x06 WRITE ENABLE, 0x02 PAGE PROGRAM,
0x20 SECTOR ERASE, WEL auto-cleared by the chip when a program/erase
completes).  Completion of a program/erase is modelled by a busy counter
that counts down one step per status-register read, so the firmware's
WIP-polling loops terminate after finitely many polls.

Every SPI-visible action (power pin, chip-select pin, byte exchange) and
every transfer-protocol action of the bulk dump (session init, block send,
session close) is recorded in an event trace, so that framing and
frame-effect properties can be stated about runs.
-/

/-- One observable hardware/protocol event of a run. -/
inductive Ev : Type
  | pow (b : Bool)
  | cs (b : Bool)
  | x (mosi miso : Nat)
  | xmInit (ok : Bool)
  | xmSend (payload : List Nat) (ok : Bool)
  | xmFini
  deriving DecidableEq, Repr

/-- Model of the external SPI NOR flash chip (modelled from the spec's
data model, section 3: status register bit 0 = WIP, bit 1 = WEL).
`mem` is the byte content, `idb` the JEDEC id byte stream, `busy` the
number of further status reads before a pending program/erase completes,
`delay` the busy duration a fresh program/erase starts with. -/
structure Chip : Type where
  mem : Nat → Nat
  idb : Nat → Nat
  wel : Bool
  busy : Nat
  delay : Nat

/-- Machine state of a run: chip, currently open SPI frame (mosi bytes
received by the chip since chip-select assert), power pin, DDRB register,
serial input stream, serial output stream, event trace. -/
structure S : Type where
  chip : Chip
  frame : Option (List Nat)
  pow : Bool
  ddrb : Nat
  inp : List Nat
  out : List Nat
  tr : List Ev

/-- Status register byte of the chip: bit 0 = WIP (busy), bit 1 = WEL. -/
def statusByte (w : Bool) (b : Nat) : Nat :=
  (if b = 0 then 0 else 1) + (if w then 2 else 0)

/-- Sequential byte write into flash memory, addresses reduced to the
24-bit address space. -/
def writeMem : (Nat → Nat) → Nat → List Nat → Nat → Nat
  | mem, _, [] => mem
  | mem, a, v :: rest => writeMem (fun q => if q = a % 16777216 then v else mem q) (a + 1) rest

/-- Sector erase: the 4 KiB sector containing the address goes to 0xFF. -/
def eraseMem (mem : Nat → Nat) (a : Nat) : Nat → Nat :=
  fun q => if q / 4096 = (a % 16777216) / 4096 then 255 else mem q

/-- Chip response to the next exchanged byte, given the frame bytes it has
received so far since chip-select was asserted. -/
def chipResp (c : Chip) (f : List Nat) : Nat :=
  match f with
  | [] => 0
  | 5 :: _ => statusByte c.wel c.busy
  | 3 :: a1 :: a2 :: a3 :: rest => c.mem ((a1 * 65536 + a2 * 256 + a3 + rest.length) % 16777216)
  | 159 :: rest => c.idb rest.length
  | _ => 0

/-- Chip state change when chip-select is released after a frame.  A
status read advances the busy countdown by one step; write enable sets
WEL; program/erase take effect only when WEL is set and auto-clear WEL. -/
def chipClose (c : Chip) (f : List Nat) : Chip :=
  match f with
  | [6] => { c with wel := true }
  | 5 :: _ => { c with busy := c.busy - 1 }
  | 2 :: a1 :: a2 :: a3 :: data =>
    if c.wel then
      { c with mem := writeMem c.mem (a1 * 65536 + a2 * 256 + a3) data,
               wel := false, busy := c.delay }
    else c
  | [32, a1, a2, a3] =>
    if c.wel then
      { c with mem := eraseMem c.mem (a1 * 65536 + a2 * 256 + a3),
               wel := false, busy := c.delay }
    else c
  | _ => c

/-- spi_power: drive the flash power-enable pin. -/
def spi_power (b : Bool) (s : S) : S :=
  { s with pow := b, tr := s.tr ++ [Ev.pow b] }

/-- spi_cs: drive chip-select (asserted = active).  Releasing chip-select
closes the open frame and lets the chip act on it. -/
def spi_cs (b : Bool) (s : S) : S :=
  if b then { s with frame := some [], tr := s.tr ++ [Ev.cs true] }
  else
    match s.frame with
    | some f => { s with chip := chipClose s.chip f, frame := none, tr := s.tr ++ [Ev.cs false] }
    | none => { s with tr := s.tr ++ [Ev.cs false] }

/-- spi_send: one full-duplex byte exchange. -/
def spi_send (b : Nat) (s : S) : Nat × S :=
  match s.frame with
  | some f =>
    (chipResp s.chip f,
     { s with frame := some (f ++ [b]), tr := s.tr ++ [Ev.x b (chipResp s.chip f)] })
  | none => (0, { s with tr := s.tr ++ [Ev.x b 0] })

/-- usb_serial_putchar. -/
def usb_serial_putchar (b : Nat) (s : S) : S :=
  { s with out := s.out ++ [b] }

/-- usb_serial_write. -/
def usb_serial_write (l : List Nat) (s : S) : S :=
  { s with out := s.out ++ l }

/-- usb_serial_getchar; none when the input stream is exhausted (the
firmware would block forever waiting for a byte). -/
def usb_serial_getchar (s : S) : Option (Nat × S) :=
  match s.inp with
  | [] => none
  | b :: rest => some (b, { s with inp := rest })

/-- send_str: write a flash-memory string to the serial port. -/
def send_str (l : List Nat) (s : S) : S :=
  usb_serial_write l s

/-- hexdigit from probe.c: low nibble to ASCII hex digit. -/
def hexdigit (v : Nat) : Nat :=
  if v % 16 < 10 then v % 16 + 48 else v % 16 + 65 - 10

/-- Accumulator loop of usb_serial_readhex: take hex digits 0-9 A-F a-f,
32-bit overflow wraps, first non-hex byte terminates and is consumed. -/
def readhexAux : Nat → List Nat → Option (Nat × List Nat)
  | _, [] => none
  | val, c :: rest =>
    if 48 ≤ c ∧ c ≤ 57 then readhexAux ((val * 16 + (c - 48)) % 4294967296) rest
    else if 65 ≤ c ∧ c ≤ 70 then readhexAux ((val * 16 + (c - 65 + 10)) % 4294967296) rest
    else if 97 ≤ c ∧ c ≤ 102 then readhexAux ((val * 16 + (c - 97 + 10)) % 4294967296) rest
    else some (val, rest)

/-- usb_serial_readhex: parse a hex literal from the serial input. -/
def usb_serial_readhex (s : S) : Option (Nat × S) :=
  match readhexAux 0 s.inp with
  | none => none
  | some (v, rest) => some (v, { s with inp := rest })

/-- spi_status: one 0x05 frame reading the status register. -/
def spi_status (s : S) : Nat × S :=
  let s1 := spi_cs true s
  let p2 := spi_send 5 s1
  let p3 := spi_send 0 p2.2
  (p3.1, spi_cs false p3.2)

/-- Data phase shared by spi_read and prom_send: n dummy exchanges. -/
def readN : Nat → S → List Nat × S
  | 0, s => ([], s)
  | n + 1, s =>
    let p := spi_send 0 s
    let q := readN n p.2
    (p.1 :: q.1, q.2)

/-- Read n raw bytes from the serial input (blocking per byte); the
uint8_t buffer store truncates each byte mod 256. -/
def getN : Nat → S → Option (List Nat × S)
  | 0, s => some ([], s)
  | n + 1, s =>
    match usb_serial_getchar s with
    | none => none
    | some (b, s1) =>
      match getN n s1 with
      | none => none
      | some (l, s2) => some (b % 256 :: l, s2)

/-- Send a buffer byte by byte inside the open frame. -/
def sendList : List Nat → S → S
  | [], s => s
  | b :: rest, s => sendList rest (spi_send b s).2

/-- spi_rdid: JEDEC RDID, opcode 0x9F plus four exchanges, response is
eight hex chars plus CRLF. -/
def spi_rdid (s : S) : S :=
  let s1 := spi_cs true (spi_power true s)
  let p2 := spi_send 159 s1
  let p3 := spi_send 1 p2.2
  let p4 := spi_send 2 p3.2
  let p5 := spi_send 4 p4.2
  let p6 := spi_send 23 p5.2
  let s7 := spi_power false (spi_cs false p6.2)
  usb_serial_write [hexdigit (p3.1 >>> 4), hexdigit p3.1, hexdigit (p4.1 >>> 4), hexdigit p4.1,
    hexdigit (p5.1 >>> 4), hexdigit p5.1, hexdigit (p6.1 >>> 4), hexdigit p6.1, 13, 10] s7

/-- spi_write_enable: status, 0x06 frame, status again; response is the
two status bytes in hex, with '!' appended when WEL is still clear. -/
def spi_write_enable (s : S) : S :=
  let s0 := spi_power true s
  let p1 := spi_status s0
  let s2 := spi_cs false (spi_send 6 (spi_cs true p1.2)).2
  let p2 := spi_status s2
  usb_serial_write ([hexdigit (p1.1 >>> 4), hexdigit p1.1, 32, hexdigit (p2.1 >>> 4), hexdigit p2.1]
    ++ (if p2.1 &&& 2 = 0 then [33] else []) ++ [13, 10]) p2.2

/-- String "wp!\r\n". -/
def wpStr : List Nat := [119, 112, 33, 13, 10]

/-- String "done!\r\n". -/
def doneStr : List Nat := [100, 111, 110, 101, 33, 13, 10]

/-- String "xmodem done\r\n". -/
def xmodemDoneStr : List Nat := [120, 109, 111, 100, 101, 109, 32, 100, 111, 110, 101, 13, 10]

/-- Body of the WIP polling loop (while (spi_status() & SPI_WIP) ;),
expressed with explicit fuel. -/
def wip_wait_go : Nat → S → S
  | 0, s => s
  | n + 1, s =>
    let p := spi_status s
    if p.1 &&& 1 = 0 then p.2 else wip_wait_go n p.2

/-- The WIP polling loop.  In the chip model a pending operation
completes after `busy` further status reads, so busy + 1 polls always
suffice; the fuel is therefore never exhausted before the loop's own
exit condition fires. -/
def wip_wait (s : S) : S := wip_wait_go (s.chip.busy + 1) s

/-- spi_erase_sector: hex address, WEL gate, 0x20 frame, WIP wait,
"E" + 6 address digits + CRLF; "wp!" + CRLF when write-protected. -/
def spi_erase_sector (s : S) : Option S :=
  match usb_serial_readhex s with
  | none => none
  | some (addr, s1) =>
    let p := spi_status s1
    if p.1 &&& 2 = 0 then some (send_str wpStr p.2)
    else
      let s2 := spi_cs true p.2
      let s3 := (spi_send 32 s2).2
      let s4 := (spi_send ((addr >>> 16) % 256) s3).2
      let s5 := (spi_send ((addr >>> 8) % 256) s4).2
      let s6 := (spi_send (addr % 256) s5).2
      let s7 := wip_wait (spi_cs false s6)
      some (usb_serial_write [69, hexdigit (addr >>> 20), hexdigit (addr >>> 16),
        hexdigit (addr >>> 12), hexdigit (addr >>> 8), hexdigit (addr >>> 4),
        hexdigit addr, 13, 10] s7)

/-- One READ frame: opcode 0x03, three address bytes MSB-first, n dummy
exchanges.  This is the shared shape of the read frame in spi_read and
prom_send. -/
def readBytes (addr n : Nat) (s : S) : List Nat × S :=
  let s1 := spi_cs true s
  let s2 := (spi_send 3 s1).2
  let s3 := (spi_send ((addr >>> 16) % 256) s2).2
  let s4 := (spi_send ((addr >>> 8) % 256) s3).2
  let s5 := (spi_send (addr % 256) s4).2
  let p := readN n s5
  (p.1, spi_cs false p.2)

/-- Response formatting of spi_read: every byte as two hex chars followed
by a space, then CRLF. -/
def hexLine (data : List Nat) : List Nat :=
  (data.map (fun d => [hexdigit (d >>> 4), hexdigit d, 32])).flatten ++ [13, 10]

/-- spi_read: hex address, power on, one 16-byte READ frame, power off,
hex dump response. -/
def spi_read (s : S) : Option S :=
  match usb_serial_readhex s with
  | none => none
  | some (addr, s1) =>
    let s2 := spi_power true s1
    let p := readBytes addr 16 s2
    let s3 := spi_power false p.2
    some (usb_serial_write (hexLine p.1) s3)

/-- Modelled from the spec: sizeof(xmodem_block.data), the 128-byte
transfer-block payload (xmodem.h is not part of the given sources; the
spec fixes the chunk size as the transfer-block payload of 128 bytes). -/
def chunk_size : Nat := 128

/-- One iteration of the spi_upload loop: read chunk_size raw serial
bytes, write-enable frame, status read, 0x02 page-program frame with the
chunk, WIP wait, progress dot. -/
def uploadChunk (addr : Nat) (s : S) : Option S :=
  match getN chunk_size s with
  | none => none
  | some (buf, s1) =>
    let s2 := spi_cs false (spi_send 6 (spi_cs true s1)).2
    let p := spi_status s2
    let s3 := spi_cs true p.2
    let s4 := (spi_send 2 s3).2
    let s5 := (spi_send ((addr >>> 16) % 256) s4).2
    let s6 := (spi_send ((addr >>> 8) % 256) s5).2
    let s7 := (spi_send (addr % 256) s6).2
    let s8 := spi_cs false (sendList buf s7)
    let s9 := wip_wait s8
    some (usb_serial_putchar 46 s9)

/-- The spi_upload for loop (offset from 0 to 4096 in chunk_size steps),
by the number of remaining chunks: 4096 / chunk_size = 32 iterations. -/
def uploadLoop : Nat → Nat → S → Option S
  | 0, _, s => some s
  | n + 1, addr, s =>
    match uploadChunk addr s with
    | none => none
    | some s1 => uploadLoop n (addr + chunk_size) s1

/-- spi_upload: hex address, WEL gate ("wp!" + CRLF when clear), go-ahead
byte 'G', 32-chunk upload loop, then "done!" + CRLF. -/
def spi_upload (s : S) : Option S :=
  match usb_serial_readhex s with
  | none => none
  | some (addr, s1) =>
    let p := spi_status s1
    if p.1 &&& 2 = 0 then some (send_str wpStr p.2)
    else
      let s2 := usb_serial_putchar 71 p.2
      match uploadLoop 32 addr s2 with
      | none => none
      | some s3 => some (send_str doneStr s3)

/-- Configured top address of the bulk dump: 8 MiB (8L << 20). -/
def end_addr : Nat := 8388608

/-- The prom_send while loop, with the transfer-protocol block-send
results supplied as a function of the chunk start address.  The fuel is
end_addr / chunk_size = 65536, the exact number of iterations a full
dump performs. -/
def promLoop (so : Nat → Bool) : Nat → Nat → S → Bool × S
  | 0, _, s => (true, s)
  | n + 1, addr, s =>
    let p := readBytes addr chunk_size s
    let s1 : S := { p.2 with tr := p.2.tr ++ [Ev.xmSend p.1 (so addr)] }
    if so addr = false then (false, s1)
    else if end_addr ≤ addr + chunk_size then (true, s1)
    else promLoop so n (addr + chunk_size) s1

/-- prom_send: init the transfer session (abort immediately on failure),
power on, dump chunks from address 0 upwards; a failed block send
returns at once, normal completion powers off and closes the session. -/
def prom_send (io : Bool) (so : Nat → Bool) (s : S) : S :=
  let s0 : S := { s with tr := s.tr ++ [Ev.xmInit io] }
  if io then
    let s1 := spi_power true s0
    let p := promLoop so 65536 0 s1
    if p.1 then
      let s2 := spi_power false p.2
      { s2 with tr := s2.tr ++ [Ev.xmFini] }
    else p.2
  else s0

/-- Modelled from the spec: the transfer-protocol trigger byte is the
protocol's initial negative acknowledgement (XMODEM NAK, 0x15); xmodem.h
is not part of the given sources. -/
def XMODEM_NAK : Nat := 21

/-- The dispatcher switch of main: one command byte, unknown bytes get
'?'. -/
def dispatch (io : Bool) (so : Nat → Bool) (c : Nat) (s : S) : Option S :=
  if c = 105 then some (spi_rdid s)
  else if c = 114 then spi_read s
  else if c = 119 then some (spi_write_enable s)
  else if c = 101 then spi_erase_sector s
  else if c = 117 then spi_upload s
  else if c = XMODEM_NAK then some (send_str xmodemDoneStr (prom_send io so s))
  else if c = 120 then
    some (usb_serial_putchar (hexdigit s.ddrb) (usb_serial_putchar (hexdigit (s.ddrb >>> 4)) s))
  else some (usb_serial_putchar 63 s)

/-- One iteration of the main dispatcher loop: prompt '>', read the
command byte, dispatch. -/
def mainStep (io : Bool) (so : Nat → Bool) (s : S) : Option S :=
  let s1 := usb_serial_putchar 62 s
  match usb_serial_getchar s1 with
  | none => none
  | some (c, s2) => dispatch io so c s2

/-!
Analysis definitions: views of event traces (frames, chip-select
discipline, transfer blocks) and closed forms of the traces the
operations produce.
-/

/-- The three address bytes an operation transmits, MSB-first, as
uint8_t truncations of addr >> 16, addr >> 8, addr. -/
def addrBytes (addr : Nat) : List Nat :=
  [(addr >>> 16) % 256, (addr >>> 8) % 256, addr % 256]

/-- The 24-bit address value encoded by the three transmitted bytes. -/
def addrVal (addr : Nat) : Nat :=
  ((addr >>> 16) % 256) * 65536 + ((addr >>> 8) % 256) * 256 + addr % 256

/-- Split a trace into the mosi byte lists of its chip-select framed
sections. -/
def framesAux : Option (List Nat) → List Ev → List (List Nat)
  | some f, [] => [f]
  | none, [] => []
  | _, Ev.cs true :: rest => framesAux (some []) rest
  | some f, Ev.cs false :: rest => f :: framesAux none rest
  | none, Ev.cs false :: rest => framesAux none rest
  | some f, Ev.x m _ :: rest => framesAux (some (f ++ [m])) rest
  | none, Ev.x _ _ :: rest => framesAux none rest
  | acc, Ev.pow _ :: rest => framesAux acc rest
  | acc, Ev.xmInit _ :: rest => framesAux acc rest
  | acc, Ev.xmSend _ _ :: rest => framesAux acc rest
  | acc, Ev.xmFini :: rest => framesAux acc rest

/-- Frames of a trace. -/
def frames (l : List Ev) : List (List Nat) := framesAux none l

/-- Chip-select discipline checker: scans a trace with the current
open/closed state; asserting while a frame is already open is the only
violation.  Returns the final open/closed state, or none on violation. -/
def csRun : Bool → List Ev → Option Bool
  | o, [] => some o
  | o, Ev.cs true :: rest => if o then none else csRun true rest
  | _, Ev.cs false :: rest => csRun false rest
  | o, _ :: rest => csRun o rest

/-- Payloads of the transfer-protocol block sends in a trace. -/
def sentBlocks (l : List Ev) : List (List Nat) :=
  l.filterMap (fun e => match e with | Ev.xmSend d _ => some d | _ => none)

/-- Trace of the WIP polling loop when it starts with busy count b and
the WEL bit is w: one status frame per poll, busy counting down. -/
def pollTr (w : Bool) : Nat → List Ev
  | 0 => [Ev.cs true, Ev.x 5 0, Ev.x 0 (statusByte w 0), Ev.cs false]
  | b + 1 => [Ev.cs true, Ev.x 5 0, Ev.x 0 (statusByte w (b + 1)), Ev.cs false] ++ pollTr w b

/-- Data-phase events of a READ frame: the k-th dummy exchange returns
the byte at base address A plus the running offset. -/
def readTrGo (mem : Nat → Nat) (A : Nat) : Nat → Nat → List Ev
  | _, 0 => []
  | k, n + 1 => Ev.x 0 (mem ((A + k) % 16777216)) :: readTrGo mem A (k + 1) n

/-- Bytes clocked out of the chip by a READ data phase. -/
def readOutGo (mem : Nat → Nat) (A : Nat) : Nat → Nat → List Nat
  | _, 0 => []
  | k, n + 1 => mem ((A + k) % 16777216) :: readOutGo mem A (k + 1) n

/-- Bytes a READ frame at the given (32-bit) address returns. -/
def readOut (mem : Nat → Nat) (addr n : Nat) : List Nat :=
  readOutGo mem (addrVal addr) 0 n

/-- Full trace of one READ frame. -/
def readFrameTr (mem : Nat → Nat) (addr n : Nat) : List Ev :=
  [Ev.cs true, Ev.x 3 0, Ev.x ((addr >>> 16) % 256) 0, Ev.x ((addr >>> 8) % 256) 0,
   Ev.x (addr % 256) 0] ++ readTrGo mem (addrVal addr) 0 n ++ [Ev.cs false]

/-- Trace of one status frame given current WEL and busy count. -/
def stFrameTr (w : Bool) (b : Nat) : List Ev :=
  [Ev.cs true, Ev.x 5 0, Ev.x 0 (statusByte w b), Ev.cs false]

/-- Trace of one sector-erase frame. -/
def eraseFrameTr (addr : Nat) : List Ev :=
  [Ev.cs true, Ev.x 32 0, Ev.x ((addr >>> 16) % 256) 0, Ev.x ((addr >>> 8) % 256) 0,
   Ev.x (addr % 256) 0, Ev.cs false]

/-- Serial response of a successful erase: 'E', six address digits, CRLF. -/
def eraseOut (addr : Nat) : List Nat :=
  [69, hexdigit (addr >>> 20), hexdigit (addr >>> 16), hexdigit (addr >>> 12),
   hexdigit (addr >>> 8), hexdigit (addr >>> 4), hexdigit addr, 13, 10]

/-- Trace of one upload-loop iteration: write-enable frame, status frame
(entered with busy count bet), page-program frame with the truncated
chunk bytes, then the WIP polling frames for a chip with delay d. -/
def chunkTr (d bet : Nat) (addr : Nat) (buf : List Nat) : List Ev :=
  [Ev.cs true, Ev.x 6 0, Ev.cs false]
  ++ stFrameTr true bet
  ++ ([Ev.cs true, Ev.x 2 0, Ev.x ((addr >>> 16) % 256) 0, Ev.x ((addr >>> 8) % 256) 0,
      Ev.x (addr % 256) 0] ++ buf.map (fun b => Ev.x b 0) ++ [Ev.cs false])
  ++ pollTr false d

/-- Trace of the whole upload loop: n chunks, the first entered with
busy count bet, the rest with 0. -/
def upTr (d : Nat) : Nat → Nat → Nat → List Nat → List Ev
  | _, 0, _, _ => []
  | bet, n + 1, addr, data =>
    chunkTr d bet addr ((data.take chunk_size).map (fun b => b % 256))
    ++ upTr d 0 n (addr + chunk_size) (data.drop chunk_size)

/-- Flash memory contents after the upload loop wrote n chunks of data
starting at addr. -/
def upMem : (Nat → Nat) → Nat → Nat → List Nat → Nat → Nat
  | mem, 0, _, _ => mem
  | mem, n + 1, addr, data =>
    upMem (writeMem mem (addrVal addr) ((data.take chunk_size).map (fun b => b % 256)))
      n (addr + chunk_size) (data.drop chunk_size)

/-- Trace of n successful bulk-dump chunks starting at addr: one READ
frame and one successful block send per chunk. -/
def promTr (mem : Nat → Nat) : Nat → Nat → List Ev
  | 0, _ => []
  | n + 1, addr =>
    readFrameTr mem addr chunk_size ++ [Ev.xmSend (readOut mem addr chunk_size) true]
    ++ promTr mem n (addr + chunk_size)

/-- Hex digit predicate of the spec's hex-literal grammar. -/
def isHexDigit (c : Nat) : Prop :=
  (48 ≤ c ∧ c ≤ 57) ∨ (65 ≤ c ∧ c ≤ 70) ∨ (97 ≤ c ∧ c ≤ 102)

instance (c : Nat) : Decidable (isHexDigit c) := by
  unfold isHexDigit; infer_instance

/-- Value of one hex digit character. -/
def hexDigitVal (c : Nat) : Nat :=
  if c ≤ 57 then c - 48 else if c ≤ 70 then c - 65 + 10 else c - 97 + 10

/-- Value accumulated by the hex parser over a digit string, with 32-bit
wraparound. -/
def hexVal (ds : List Nat) : Nat :=
  ds.foldl (fun v c => (v * 16 + hexDigitVal c) % 4294967296) 0

/-!
Run lemmas: closed forms for the states the operations produce.
-/

@[simp] lemma chipResp_nil (c : Chip) : chipResp c [] = 0 := rfl

@[simp] lemma chipResp_status (c : Chip) (f : List Nat) :
    chipResp c (5 :: f) = statusByte c.wel c.busy := rfl

@[simp] lemma chipResp_read (c : Chip) (a1 a2 a3 : Nat) (rest : List Nat) :
    chipResp c (3 :: a1 :: a2 :: a3 :: rest)
      = c.mem ((a1 * 65536 + a2 * 256 + a3 + rest.length) % 16777216) := rfl

@[simp] lemma chipResp_read1 (c : Chip) : chipResp c [3] = 0 := rfl

@[simp] lemma chipResp_read2 (c : Chip) (a1 : Nat) : chipResp c [3, a1] = 0 := rfl

@[simp] lemma chipResp_read3 (c : Chip) (a1 a2 : Nat) : chipResp c [3, a1, a2] = 0 := rfl

@[simp] lemma chipResp_prog (c : Chip) (f : List Nat) : chipResp c (2 :: f) = 0 := rfl

@[simp] lemma chipResp_erase (c : Chip) (f : List Nat) : chipResp c (32 :: f) = 0 := rfl

@[simp] lemma chipResp_rdid (c : Chip) (rest : List Nat) :
    chipResp c (159 :: rest) = c.idb rest.length := rfl

@[simp] lemma chipClose_status (c : Chip) (f : List Nat) :
    chipClose c (5 :: f) = { c with busy := c.busy - 1 } := rfl

@[simp] lemma chipClose_wren (c : Chip) : chipClose c [6] = { c with wel := true } := rfl

@[simp] lemma chipClose_prog (c : Chip) (a1 a2 a3 : Nat) (data : List Nat) :
    chipClose c (2 :: a1 :: a2 :: a3 :: data)
      = if c.wel then
          { c with mem := writeMem c.mem (a1 * 65536 + a2 * 256 + a3) data,
                   wel := false, busy := c.delay }
        else c := rfl

@[simp] lemma chipClose_erase (c : Chip) (a1 a2 a3 : Nat) :
    chipClose c [32, a1, a2, a3]
      = if c.wel then
          { c with mem := eraseMem c.mem (a1 * 65536 + a2 * 256 + a3),
                   wel := false, busy := c.delay }
        else c := rfl

@[simp] lemma chipClose_read (c : Chip) (f : List Nat) : chipClose c (3 :: f) = c := rfl

@[simp] lemma chipClose_rdid (c : Chip) (f : List Nat) : chipClose c (159 :: f) = c := rfl

lemma statusByte_and_two (w : Bool) (b : Nat) :
    statusByte w b &&& 2 = if w then 2 else 0 := by
  by_cases hb : b = 0 <;> cases w <;> simp [statusByte, hb] <;> decide

lemma statusByte_and_one (w : Bool) (b : Nat) :
    statusByte w b &&& 1 = if b = 0 then 0 else 1 := by
  by_cases hb : b = 0 <;> cases w <;> simp [statusByte, hb]

lemma spi_status_run (m ib : Nat → Nat) (w : Bool) (b d : Nat) (pw : Bool) (db : Nat)
    (inp out : List Nat) (tr : List Ev) :
    spi_status (S.mk (Chip.mk m ib w b d) none pw db inp out tr)
      = (statusByte w b,
         S.mk (Chip.mk m ib w (b - 1) d) none pw db inp out (tr ++ stFrameTr w b)) := by
  simp [spi_status, spi_cs, spi_send, stFrameTr]

lemma wip_wait_go_run (m ib : Nat → Nat) (w : Bool) (d : Nat) (pw : Bool) (db : Nat)
    (inp out : List Nat) :
    ∀ (b : Nat) (tr : List Ev),
      wip_wait_go (b + 1) (S.mk (Chip.mk m ib w b d) none pw db inp out tr)
        = S.mk (Chip.mk m ib w 0 d) none pw db inp out (tr ++ pollTr w b) := by
  intro b
  induction b with
  | zero =>
    intro tr
    simp [wip_wait_go, spi_status_run, statusByte_and_one, pollTr, stFrameTr]
  | succ b ih =>
    intro tr
    rw [wip_wait_go, spi_status_run]
    simp only [statusByte_and_one, Nat.succ_ne_zero, if_false, Nat.add_sub_cancel]
    rw [ih]
    simp [pollTr, stFrameTr, List.append_assoc]

lemma wip_wait_run (m ib : Nat → Nat) (w : Bool) (b d : Nat) (pw : Bool) (db : Nat)
    (inp out : List Nat) (tr : List Ev) :
    wip_wait (S.mk (Chip.mk m ib w b d) none pw db inp out tr)
      = S.mk (Chip.mk m ib w 0 d) none pw db inp out (tr ++ pollTr w b) := by
  rw [wip_wait]
  exact wip_wait_go_run m ib w d pw db inp out b tr

lemma readhexAux_run (ds : List Nat) :
    ∀ (v t : Nat) (rest : List Nat), (∀ c ∈ ds, isHexDigit c) → ¬ isHexDigit t →
      readhexAux v (ds ++ t :: rest)
        = some (ds.foldl (fun a c => (a * 16 + hexDigitVal c) % 4294967296) v, rest) := by
  induction ds with
  | nil =>
    intro v t rest _ ht
    have h1 : ¬(48 ≤ t ∧ t ≤ 57) := fun h => ht (Or.inl h)
    have h2 : ¬(65 ≤ t ∧ t ≤ 70) := fun h => ht (Or.inr (Or.inl h))
    have h3 : ¬(97 ≤ t ∧ t ≤ 102) := fun h => ht (Or.inr (Or.inr h))
    simp [readhexAux, h1, h2, h3]
  | cons c ds ih =>
    intro v t rest hall ht
    have hc : isHexDigit c := hall c (List.mem_cons_self c ds)
    have hall' : ∀ x ∈ ds, isHexDigit x := fun x hx => hall x (List.mem_cons_of_mem c hx)
    rcases hc with h | h | h
    · have hv : hexDigitVal c = c - 48 := by
        unfold hexDigitVal; rw [if_pos h.2]
      simp only [List.cons_append, readhexAux, List.append_eq, if_pos h]
      rw [ih _ t rest hall' ht]
      simp [hv]
    · have hv : hexDigitVal c = c - 65 + 10 := by
        unfold hexDigitVal
        rw [if_neg (by omega), if_pos h.2]
      have hno : ¬(48 ≤ c ∧ c ≤ 57) := by omega
      simp only [List.cons_append, readhexAux, List.append_eq, if_neg hno, if_pos h]
      rw [ih _ t rest hall' ht]
      simp [hv]
    · have hv : hexDigitVal c = c - 97 + 10 := by
        unfold hexDigitVal
        rw [if_neg (by omega), if_neg (by omega)]
      have hno : ¬(48 ≤ c ∧ c ≤ 57) := by omega
      have hno2 : ¬(65 ≤ c ∧ c ≤ 70) := by omega
      simp only [List.cons_append, readhexAux, List.append_eq, if_neg hno, if_neg hno2, if_pos h]
      rw [ih _ t rest hall' ht]
      simp [hv]

lemma readN_run (m ib : Nat → Nat) (w : Bool) (b d : Nat) (pw : Bool) (db : Nat)
    (inp out : List Nat) (a1 a2 a3 : Nat) :
    ∀ (n : Nat) (pre : List Nat) (tr : List Ev),
      readN n (S.mk (Chip.mk m ib w b d) (some (3 :: a1 :: a2 :: a3 :: pre)) pw db inp out tr)
        = (readOutGo m (a1 * 65536 + a2 * 256 + a3) pre.length n,
           S.mk (Chip.mk m ib w b d)
             (some (3 :: a1 :: a2 :: a3 :: (pre ++ List.replicate n 0))) pw db inp out
             (tr ++ readTrGo m (a1 * 65536 + a2 * 256 + a3) pre.length n)) := by
  intro n
  induction n with
  | zero => intro pre tr; simp [readN, readOutGo, readTrGo]
  | succ n ih =>
    intro pre tr
    rw [readN]
    simp only [spi_send]
    rw [show (3 :: a1 :: a2 :: a3 :: pre) ++ [0] = 3 :: a1 :: a2 :: a3 :: (pre ++ [0]) by simp]
    rw [ih (pre ++ [0])]
    simp [readOutGo, readTrGo, List.replicate_succ, List.append_assoc]

lemma readBytes_run (m ib : Nat → Nat) (w : Bool) (b d : Nat) (pw : Bool) (db : Nat)
    (inp out : List Nat) (tr : List Ev) (addr n : Nat) :
    readBytes addr n (S.mk (Chip.mk m ib w b d) none pw db inp out tr)
      = (readOut m addr n,
         S.mk (Chip.mk m ib w b d) none pw db inp out (tr ++ readFrameTr m addr n)) := by
  simp [readBytes, spi_cs, spi_send, readN_run, readOut, readFrameTr, addrVal,
    List.append_assoc]

lemma spi_erase_sector_run_wp (m ib : Nat → Nat) (b d : Nat) (pw : Bool) (db : Nat)
    (inp inp1 out : List Nat) (tr : List Ev) (addr : Nat)
    (h : readhexAux 0 inp = some (addr, inp1)) :
    spi_erase_sector (S.mk (Chip.mk m ib false b d) none pw db inp out tr)
      = some (S.mk (Chip.mk m ib false (b - 1) d) none pw db inp1 (out ++ wpStr)
          (tr ++ stFrameTr false b)) := by
  rw [spi_erase_sector, usb_serial_readhex]
  simp only [h]
  rw [spi_status_run]
  simp [statusByte_and_two, send_str, usb_serial_write]

lemma spi_erase_sector_run_ok (m ib : Nat → Nat) (b d : Nat) (pw : Bool) (db : Nat)
    (inp inp1 out : List Nat) (tr : List Ev) (addr : Nat)
    (h : readhexAux 0 inp = some (addr, inp1)) :
    spi_erase_sector (S.mk (Chip.mk m ib true b d) none pw db inp out tr)
      = some (S.mk (Chip.mk (eraseMem m (addrVal addr)) ib false 0 d) none pw db inp1
          (out ++ eraseOut addr)
          (tr ++ stFrameTr true b ++ eraseFrameTr addr ++ pollTr false d)) := by
  rw [spi_erase_sector, usb_serial_readhex]
  simp only [h]
  simp [spi_status_run, statusByte_and_two, spi_cs, spi_send, wip_wait_run,
    eraseFrameTr, eraseOut, addrVal, send_str, usb_serial_write, List.append_assoc]

lemma spi_write_enable_run (m ib : Nat → Nat) (w : Bool) (b d : Nat) (pw : Bool) (db : Nat)
    (inp out : List Nat) (tr : List Ev) :
    spi_write_enable (S.mk (Chip.mk m ib w b d) none pw db inp out tr)
      = S.mk (Chip.mk m ib true (b - 1 - 1) d) none true db inp
          (out ++ [hexdigit (statusByte w b >>> 4), hexdigit (statusByte w b), 32,
            hexdigit (statusByte true (b - 1) >>> 4), hexdigit (statusByte true (b - 1)), 13, 10])
          (tr ++ [Ev.pow true] ++ stFrameTr w b ++ [Ev.cs true, Ev.x 6 0, Ev.cs false]
            ++ stFrameTr true (b - 1)) := by
  rw [spi_write_enable]
  simp [spi_power, spi_status_run, spi_cs, spi_send, statusByte_and_two,
    usb_serial_write, List.append_assoc]

lemma spi_read_run (m ib : Nat → Nat) (w : Bool) (b d : Nat) (pw : Bool) (db : Nat)
    (inp inp1 out : List Nat) (tr : List Ev) (addr : Nat)
    (h : readhexAux 0 inp = some (addr, inp1)) :
    spi_read (S.mk (Chip.mk m ib w b d) none pw db inp out tr)
      = some (S.mk (Chip.mk m ib w b d) none false db inp1
          (out ++ hexLine (readOut m addr 16))
          (tr ++ [Ev.pow true] ++ readFrameTr m addr 16 ++ [Ev.pow false])) := by
  rw [spi_read, usb_serial_readhex]
  simp only [h]
  rw [spi_power]
  rw [readBytes_run]
  simp [spi_power, usb_serial_write, List.append_assoc]

lemma spi_rdid_run (m ib : Nat → Nat) (w : Bool) (b d : Nat) (pw : Bool) (db : Nat)
    (inp out : List Nat) (tr : List Ev) :
    spi_rdid (S.mk (Chip.mk m ib w b d) none pw db inp out tr)
      = S.mk (Chip.mk m ib w b d) none false db inp
          (out ++ [hexdigit (ib 0 >>> 4), hexdigit (ib 0), hexdigit (ib 1 >>> 4), hexdigit (ib 1),
            hexdigit (ib 2 >>> 4), hexdigit (ib 2), hexdigit (ib 3 >>> 4), hexdigit (ib 3), 13, 10])
          (tr ++ [Ev.pow true, Ev.cs true, Ev.x 159 0, Ev.x 1 (ib 0), Ev.x 2 (ib 1),
            Ev.x 4 (ib 2), Ev.x 23 (ib 3), Ev.cs false, Ev.pow false]) := by
  rw [spi_rdid]
  simp [spi_power, spi_cs, spi_send, usb_serial_write, List.append_assoc]

lemma getN_run (c : Chip) (fr : Option (List Nat)) (pw : Bool) (db : Nat)
    (out : List Nat) (tr : List Ev) :
    ∀ (buf rest : List Nat),
      getN buf.length (S.mk c fr pw db (buf ++ rest) out tr)
        = some (buf.map (fun v => v % 256), S.mk c fr pw db rest out tr) := by
  intro buf
  induction buf with
  | nil => intro rest; simp [getN]
  | cons v buf ih =>
    intro rest
    simp only [List.length_cons, List.cons_append, getN, usb_serial_getchar]
    rw [ih rest]
    simp

lemma sendList_run (c : Chip) (pw : Bool) (db : Nat) (inp out : List Nat) :
    ∀ (l pre : List Nat) (tr : List Ev),
      sendList l (S.mk c (some (2 :: pre)) pw db inp out tr)
        = S.mk c (some (2 :: (pre ++ l))) pw db inp out
            (tr ++ l.map (fun v => Ev.x v 0)) := by
  intro l
  induction l with
  | nil => intro pre tr; simp [sendList]
  | cons v l ih =>
    intro pre tr
    rw [sendList]
    simp only [spi_send, chipResp_prog]
    rw [show (2 :: pre) ++ [v] = 2 :: (pre ++ [v]) by simp]
    rw [ih (pre ++ [v])]
    simp [List.append_assoc]

lemma uploadChunk_run (m ib : Nat → Nat) (w : Bool) (bet d : Nat) (pw : Bool) (db : Nat)
    (out : List Nat) (tr : List Ev) (addr : Nat) (buf rest : List Nat)
    (hlen : buf.length = chunk_size) :
    uploadChunk addr (S.mk (Chip.mk m ib w bet d) none pw db (buf ++ rest) out tr)
      = some (S.mk
          (Chip.mk (writeMem m (addrVal addr) (buf.map (fun v => v % 256))) ib false 0 d)
          none pw db rest (out ++ [46])
          (tr ++ chunkTr d bet addr (buf.map (fun v => v % 256)))) := by
  rw [uploadChunk, ← hlen, getN_run]
  simp [spi_cs, spi_send, spi_status_run, sendList_run, wip_wait_run, chunkTr,
    usb_serial_putchar, addrVal, List.append_assoc]

lemma uploadLoop_step (n addr : Nat) (s s1 : S) (h : uploadChunk addr s = some s1) :
    uploadLoop (n + 1) addr s = uploadLoop n (addr + chunk_size) s1 := by
  rw [uploadLoop, h]

lemma uploadLoop_run (ib : Nat → Nat) (d : Nat) (pw : Bool) (db : Nat) :
    ∀ (n : Nat) (m : Nat → Nat) (w : Bool) (bet addr : Nat) (data rest out : List Nat)
      (tr : List Ev), data.length = chunk_size * n →
      uploadLoop n addr (S.mk (Chip.mk m ib w bet d) none pw db (data ++ rest) out tr)
        = some (S.mk
            (Chip.mk (upMem m n addr data) ib (if n = 0 then w else false)
              (if n = 0 then bet else 0) d)
            none pw db rest (out ++ List.replicate n 46) (tr ++ upTr d bet n addr data)) := by
  intro n
  induction n with
  | zero =>
    intro m w bet addr data rest out tr hlen
    have : data = [] := List.eq_nil_of_length_eq_zero (by simpa using hlen)
    subst this
    simp [uploadLoop, upMem, upTr]
  | succ n ih =>
    intro m w bet addr data rest out tr hlen
    unfold chunk_size at hlen
    have htake : (data.take chunk_size).length = chunk_size := by
      rw [List.length_take]
      unfold chunk_size
      omega
    have hsplit : S.mk (Chip.mk m ib w bet d) none pw db (data ++ rest) out tr
        = S.mk (Chip.mk m ib w bet d) none pw db
            (data.take chunk_size ++ (data.drop chunk_size ++ rest)) out tr := by
      rw [← List.append_assoc, List.take_append_drop]
    rw [hsplit, uploadLoop_step n addr _ _ (uploadChunk_run m ib w bet d pw db out tr addr _ _ htake)]
    rw [ih (writeMem m (addrVal addr) ((data.take chunk_size).map (fun v => v % 256))) false 0
      (addr + chunk_size) (data.drop chunk_size) rest (out ++ [46])
      (tr ++ chunkTr d bet addr ((data.take chunk_size).map (fun v => v % 256)))
      (by rw [List.length_drop]; unfold chunk_size; omega)]
    simp [upMem, upTr, List.replicate_succ, List.append_assoc]

lemma spi_upload_run_wp (m ib : Nat → Nat) (b d : Nat) (pw : Bool) (db : Nat)
    (inp inp1 out : List Nat) (tr : List Ev) (addr : Nat)
    (h : readhexAux 0 inp = some (addr, inp1)) :
    spi_upload (S.mk (Chip.mk m ib false b d) none pw db inp out tr)
      = some (S.mk (Chip.mk m ib false (b - 1) d) none pw db inp1 (out ++ wpStr)
          (tr ++ stFrameTr false b)) := by
  rw [spi_upload, usb_serial_readhex]
  simp only [h]
  rw [spi_status_run]
  simp [statusByte_and_two, send_str, usb_serial_write]

lemma spi_upload_run_ok (m ib : Nat → Nat) (b d : Nat) (pw : Bool) (db : Nat)
    (inp data rest out : List Nat) (tr : List Ev) (addr : Nat)
    (h : readhexAux 0 inp = some (addr, data ++ rest)) (hlen : data.length = 4096) :
    spi_upload (S.mk (Chip.mk m ib true b d) none pw db inp out tr)
      = some (S.mk (Chip.mk (upMem m 32 addr data) ib false 0 d) none pw db rest
          (out ++ 71 :: (List.replicate 32 46 ++ doneStr))
          (tr ++ stFrameTr true b ++ upTr d (b - 1) 32 addr data)) := by
  rw [spi_upload, usb_serial_readhex]
  simp only [h]
  rw [spi_status_run]
  simp only [statusByte_and_two, if_true]
  rw [if_neg (by decide)]
  rw [show usb_serial_putchar 71 (S.mk (Chip.mk m ib true (b - 1) d) none pw db (data ++ rest)
        out (tr ++ stFrameTr true b))
      = S.mk (Chip.mk m ib true (b - 1) d) none pw db (data ++ rest) (out ++ [71])
          (tr ++ stFrameTr true b) from rfl]
  rw [uploadLoop_run ib d pw db 32 m true (b - 1) addr data rest (out ++ [71])
    (tr ++ stFrameTr true b) (by simp only [chunk_size]; omega)]
  simp [send_str, usb_serial_write, List.append_assoc]

lemma promLoop_ok (m ib : Nat → Nat) (w : Bool) (b d : Nat) (pw : Bool) (db : Nat)
    (inp out : List Nat) (so : Nat → Bool) :
    ∀ (n f addr : Nat) (tr : List Ev), n ≤ f → addr + chunk_size * n = end_addr → 1 ≤ n →
      (∀ k, k < n → so (addr + chunk_size * k) = true) →
      promLoop so f addr (S.mk (Chip.mk m ib w b d) none pw db inp out tr)
        = (true, S.mk (Chip.mk m ib w b d) none pw db inp out (tr ++ promTr m n addr)) := by
  intro n
  induction n with
  | zero => intro f addr tr _ _ h1; omega
  | succ n ih =>
    intro f addr tr hf hend _ hok
    obtain ⟨f', rfl⟩ : ∃ f', f = f' + 1 := ⟨f - 1, by omega⟩
    have hok0 : so addr = true := by simpa using hok 0 (by omega)
    rw [promLoop, readBytes_run]
    simp only [hok0, Bool.true_eq_false, if_false]
    by_cases hn : n = 0
    · subst hn
      rw [if_pos (by simp only [chunk_size, end_addr] at hend ⊢; omega)]
      simp [promTr, readOut, List.append_assoc]
    · rw [if_neg (by simp only [chunk_size, end_addr] at hend ⊢; omega)]
      rw [ih f' (addr + chunk_size) _ (by omega)
        (by simp only [chunk_size, end_addr] at hend ⊢; omega) (by omega)
        (fun k hk => by
          have := hok (k + 1) (by omega)
          rw [show addr + chunk_size + chunk_size * k = addr + chunk_size * (k + 1) by ring]
          exact this)]
      simp [promTr, readOut, List.append_assoc]

lemma promLoop_fail (m ib : Nat → Nat) (w : Bool) (b d : Nat) (pw : Bool) (db : Nat)
    (inp out : List Nat) (so : Nat → Bool) :
    ∀ (j f addr : Nat) (tr : List Ev), j + 1 ≤ f → addr + chunk_size * j + chunk_size ≤ end_addr →
      (∀ k, k < j → so (addr + chunk_size * k) = true) → so (addr + chunk_size * j) = false →
      promLoop so f addr (S.mk (Chip.mk m ib w b d) none pw db inp out tr)
        = (false, S.mk (Chip.mk m ib w b d) none pw db inp out
            (tr ++ promTr m j addr ++ readFrameTr m (addr + chunk_size * j) chunk_size
             ++ [Ev.xmSend (readOut m (addr + chunk_size * j) chunk_size) false])) := by
  intro j
  induction j with
  | zero =>
    intro f addr tr hf _ _ hfail
    obtain ⟨f', rfl⟩ : ∃ f', f = f' + 1 := ⟨f - 1, by omega⟩
    rw [promLoop, readBytes_run]
    simp only [Nat.mul_zero, Nat.add_zero] at hfail
    simp [hfail, promTr, List.append_assoc]
  | succ j ih =>
    intro f addr tr hf hend hok hfail
    obtain ⟨f', rfl⟩ : ∃ f', f = f' + 1 := ⟨f - 1, by omega⟩
    have hok0 : so addr = true := by simpa using hok 0 (by omega)
    rw [promLoop, readBytes_run]
    simp only [hok0, Bool.true_eq_false, if_false]
    rw [if_neg (by simp only [chunk_size, end_addr] at hend ⊢; omega)]
    rw [ih f' (addr + chunk_size) _ (by omega)
      (by rw [show addr + chunk_size + chunk_size * j = addr + chunk_size * (j + 1) by ring]
          exact hend)
      (fun k hk => by
        have := hok (k + 1) (by omega)
        rw [show addr + chunk_size + chunk_size * k = addr + chunk_size * (k + 1) by ring]
        exact this)
      (by rw [show addr + chunk_size + chunk_size * j = addr + chunk_size * (j + 1) by ring]
          exact hfail)]
    rw [show addr + chunk_size + chunk_size * j = addr + chunk_size * (j + 1) by ring]
    simp [promTr, readOut, List.append_assoc]

lemma prom_send_run_none (io : Bool) (so : Nat → Bool) (c : Chip) (pw : Bool) (db : Nat)
    (inp out : List Nat) (tr : List Ev) (hio : io = false) :
    prom_send io so (S.mk c none pw db inp out tr)
      = S.mk c none pw db inp out (tr ++ [Ev.xmInit false]) := by
  subst hio
  simp [prom_send]

lemma prom_send_run_ok (m ib : Nat → Nat) (w : Bool) (b d : Nat) (pw : Bool) (db : Nat)
    (inp out : List Nat) (tr : List Ev) (so : Nat → Bool)
    (hok : ∀ k, k < 65536 → so (chunk_size * k) = true) :
    prom_send true so (S.mk (Chip.mk m ib w b d) none pw db inp out tr)
      = S.mk (Chip.mk m ib w b d) none false db inp out
          (tr ++ [Ev.xmInit true, Ev.pow true] ++ promTr m 65536 0
           ++ [Ev.pow false, Ev.xmFini]) := by
  rw [prom_send]
  simp only [if_true]
  rw [show spi_power true (S.mk (Chip.mk m ib w b d) none pw db inp out
        (tr ++ [Ev.xmInit true]))
      = S.mk (Chip.mk m ib w b d) none true db inp out
          (tr ++ [Ev.xmInit true] ++ [Ev.pow true]) from rfl]
  rw [promLoop_ok m ib w b d true db inp out so 65536 65536 0 _ (by omega) (by decide)
    (by omega) (fun k hk => by simpa using hok k hk)]
  simp [spi_power, List.append_assoc]

lemma prom_send_run_fail (m ib : Nat → Nat) (w : Bool) (b d : Nat) (pw : Bool) (db : Nat)
    (inp out : List Nat) (tr : List Ev) (so : Nat → Bool) (j : Nat) (hj : j < 65536)
    (hok : ∀ k, k < j → so (chunk_size * k) = true) (hfail : so (chunk_size * j) = false) :
    prom_send true so (S.mk (Chip.mk m ib w b d) none pw db inp out tr)
      = S.mk (Chip.mk m ib w b d) none true db inp out
          (tr ++ [Ev.xmInit true, Ev.pow true] ++ promTr m j 0
           ++ readFrameTr m (chunk_size * j) chunk_size
           ++ [Ev.xmSend (readOut m (chunk_size * j) chunk_size) false]) := by
  rw [prom_send]
  simp only [if_true]
  rw [show spi_power true (S.mk (Chip.mk m ib w b d) none pw db inp out
        (tr ++ [Ev.xmInit true]))
      = S.mk (Chip.mk m ib w b d) none true db inp out
          (tr ++ [Ev.xmInit true] ++ [Ev.pow true]) from rfl]
  rw [promLoop_fail m ib w b d true db inp out so j 65536 0 _ (by omega)
    (by unfold chunk_size end_addr; omega)
    (fun k hk => by simpa using hok k hk) (by simpa using hfail)]
  simp [List.append_assoc]

/-!
Frame extraction, chip-select discipline and block extraction lemmas.
-/

@[simp] lemma framesAux_nil_none : framesAux none [] = [] := rfl

@[simp] lemma framesAux_nil_some (f : List Nat) : framesAux (some f) [] = [f] := rfl

@[simp] lemma framesAux_csT (acc : Option (List Nat)) (rest : List Ev) :
    framesAux acc (Ev.cs true :: rest) = framesAux (some []) rest := by
  cases acc <;> rfl

@[simp] lemma framesAux_csF_some (f : List Nat) (rest : List Ev) :
    framesAux (some f) (Ev.cs false :: rest) = f :: framesAux none rest := rfl

@[simp] lemma framesAux_csF_none (rest : List Ev) :
    framesAux none (Ev.cs false :: rest) = framesAux none rest := rfl

@[simp] lemma framesAux_x_some (f : List Nat) (v r : Nat) (rest : List Ev) :
    framesAux (some f) (Ev.x v r :: rest) = framesAux (some (f ++ [v])) rest := rfl

@[simp] lemma framesAux_x_none (v r : Nat) (rest : List Ev) :
    framesAux none (Ev.x v r :: rest) = framesAux none rest := rfl

@[simp] lemma framesAux_pow (acc : Option (List Nat)) (b : Bool) (rest : List Ev) :
    framesAux acc (Ev.pow b :: rest) = framesAux acc rest := by
  cases acc <;> rfl

@[simp] lemma framesAux_xmInit (acc : Option (List Nat)) (b : Bool) (rest : List Ev) :
    framesAux acc (Ev.xmInit b :: rest) = framesAux acc rest := by
  cases acc <;> rfl

@[simp] lemma framesAux_xmSend (acc : Option (List Nat)) (p : List Nat) (b : Bool)
    (rest : List Ev) :
    framesAux acc (Ev.xmSend p b :: rest) = framesAux acc rest := by
  cases acc <;> rfl

@[simp] lemma framesAux_xmFini (acc : Option (List Nat)) (rest : List Ev) :
    framesAux acc (Ev.xmFini :: rest) = framesAux acc rest := by
  cases acc <;> rfl

lemma framesAux_readTrGo (m : Nat → Nat) (A : Nat) :
    ∀ (n k : Nat) (f : List Nat) (rest : List Ev),
      framesAux (some f) (readTrGo m A k n ++ rest)
        = framesAux (some (f ++ List.replicate n 0)) rest := by
  intro n
  induction n with
  | zero => intro k f rest; simp [readTrGo]
  | succ n ih =>
    intro k f rest
    rw [readTrGo]
    simp only [List.cons_append, framesAux_x_some]
    rw [ih (k + 1)]
    simp [List.replicate_succ, List.append_assoc]

lemma framesAux_mapx (l : List Nat) :
    ∀ (f : List Nat) (rest : List Ev),
      framesAux (some f) (l.map (fun v => Ev.x v 0) ++ rest)
        = framesAux (some (f ++ l)) rest := by
  induction l with
  | nil => intro f rest; simp
  | cons v l ih =>
    intro f rest
    simp only [List.map_cons, List.cons_append, framesAux_x_some]
    rw [ih]
    simp

lemma frames_stFrameTr (w : Bool) (b : Nat) (rest : List Ev) :
    framesAux none (stFrameTr w b ++ rest) = [5, 0] :: framesAux none rest := by
  simp [stFrameTr]

lemma frames_pollTr (w : Bool) :
    ∀ (b : Nat) (rest : List Ev),
      framesAux none (pollTr w b ++ rest)
        = List.replicate (b + 1) [5, 0] ++ framesAux none rest := by
  intro b
  induction b with
  | zero => intro rest; simp [pollTr]
  | succ b ih =>
    intro rest
    rw [pollTr]
    simp only [List.cons_append, List.nil_append, List.append_assoc, framesAux_csT,
      framesAux_x_some, framesAux_csF_some]
    rw [ih rest]
    simp [List.replicate_succ]

lemma frames_readFrameTr (m : Nat → Nat) (a n : Nat) (rest : List Ev) :
    framesAux none (readFrameTr m a n ++ rest)
      = (3 :: (addrBytes a ++ List.replicate n 0)) :: framesAux none rest := by
  rw [readFrameTr]
  simp only [List.cons_append, List.nil_append, List.append_assoc, framesAux_csT,
    framesAux_x_some]
  rw [framesAux_readTrGo]
  simp [addrBytes]

lemma frames_chunkTr (d bet a : Nat) (buf : List Nat) (rest : List Ev) :
    framesAux none (chunkTr d bet a buf ++ rest)
      = ([6] :: [5, 0] :: (2 :: (addrBytes a ++ buf)) :: List.replicate (d + 1) [5, 0])
        ++ framesAux none rest := by
  rw [chunkTr]
  simp only [List.cons_append, List.nil_append, List.append_assoc, framesAux_csT,
    framesAux_x_some, framesAux_csF_some]
  rw [frames_stFrameTr]
  simp only [List.cons_append, List.nil_append, List.append_assoc, framesAux_csT,
    framesAux_x_some]
  rw [framesAux_mapx]
  simp only [framesAux_csF_some]
  rw [frames_pollTr]
  simp [addrBytes]

/-- Expected frames of the upload loop: per chunk a write-enable frame,
a status frame, the page-program frame, then the WIP polls. -/
def upFrames (d : Nat) : Nat → Nat → List Nat → List (List Nat)
  | 0, _, _ => []
  | n + 1, addr, data =>
    ([6] :: [5, 0] :: (2 :: (addrBytes addr ++ (data.take chunk_size).map (fun v => v % 256)))
      :: List.replicate (d + 1) [5, 0])
    ++ upFrames d n (addr + chunk_size) (data.drop chunk_size)

lemma frames_upTr (d : Nat) :
    ∀ (n bet addr : Nat) (data : List Nat) (rest : List Ev),
      framesAux none (upTr d bet n addr data ++ rest)
        = upFrames d n addr data ++ framesAux none rest := by
  intro n
  induction n with
  | zero => intro bet addr data rest; simp [upTr, upFrames]
  | succ n ih =>
    intro bet addr data rest
    rw [upTr, upFrames, List.append_assoc, frames_chunkTr, ih]
    simp [List.append_assoc]

lemma frames_promTr (m : Nat → Nat) :
    ∀ (n addr : Nat) (rest : List Ev),
      framesAux none (promTr m n addr ++ rest)
        = (List.range n).map
            (fun k => 3 :: (addrBytes (addr + chunk_size * k) ++ List.replicate chunk_size 0))
          ++ framesAux none rest := by
  intro n
  induction n with
  | zero => intro addr rest; simp [promTr]
  | succ n ih =>
    intro addr rest
    rw [promTr]
    simp only [List.append_assoc]
    rw [frames_readFrameTr]
    simp only [List.cons_append, List.nil_append, framesAux_xmSend]
    rw [ih]
    rw [List.range_succ_eq_map]
    simp only [List.map_cons, List.map_map, Nat.mul_zero, Nat.add_zero]
    congr 2
    apply List.map_congr_left
    intro k _
    simp only [Function.comp_apply]
    rw [show addr + chunk_size + chunk_size * k = addr + chunk_size * k.succ from by rw [Nat.succ_eq_add_one]; ring]

@[simp] lemma csRun_nil (o : Bool) : csRun o [] = some o := rfl

@[simp] lemma csRun_csT (o : Bool) (rest : List Ev) :
    csRun o (Ev.cs true :: rest) = if o then none else csRun true rest := rfl

@[simp] lemma csRun_csF (o : Bool) (rest : List Ev) :
    csRun o (Ev.cs false :: rest) = csRun false rest := rfl

@[simp] lemma csRun_x (o : Bool) (v r : Nat) (rest : List Ev) :
    csRun o (Ev.x v r :: rest) = csRun o rest := rfl

@[simp] lemma csRun_pow (o : Bool) (b : Bool) (rest : List Ev) :
    csRun o (Ev.pow b :: rest) = csRun o rest := rfl

@[simp] lemma csRun_xmInit (o : Bool) (b : Bool) (rest : List Ev) :
    csRun o (Ev.xmInit b :: rest) = csRun o rest := rfl

@[simp] lemma csRun_xmSend (o : Bool) (p : List Nat) (b : Bool) (rest : List Ev) :
    csRun o (Ev.xmSend p b :: rest) = csRun o rest := rfl

@[simp] lemma csRun_xmFini (o : Bool) (rest : List Ev) :
    csRun o (Ev.xmFini :: rest) = csRun o rest := rfl

lemma csRun_append :
    ∀ (a b : List Ev) (o : Bool),
      csRun o (a ++ b) = (csRun o a).bind (fun q => csRun q b) := by
  intro a
  induction a with
  | nil => intro b o; simp
  | cons e rest ih =>
    intro b o
    cases e with
    | cs v =>
      cases v
      · simp [ih]
      · cases o <;> simp [ih]
    | x v r => simp [ih]
    | pow v => simp [ih]
    | xmInit v => simp [ih]
    | xmSend p v => simp [ih]
    | xmFini => simp [ih]

lemma csRun_stFrameTr (w : Bool) (b : Nat) : csRun false (stFrameTr w b) = some false := rfl

lemma csRun_pollTr (w : Bool) : ∀ b : Nat, csRun false (pollTr w b) = some false := by
  intro b
  induction b with
  | zero => rfl
  | succ b ih =>
    rw [pollTr, csRun_append]
    simp [ih]

lemma csRun_readTrGo (m : Nat → Nat) (A : Nat) :
    ∀ (n k : Nat) (o : Bool), csRun o (readTrGo m A k n) = some o := by
  intro n
  induction n with
  | zero => intro k o; rfl
  | succ n ih => intro k o; rw [readTrGo]; simp [ih]

lemma csRun_mapx : ∀ (l : List Nat) (o : Bool), csRun o (l.map (fun v => Ev.x v 0)) = some o := by
  intro l
  induction l with
  | nil => intro o; rfl
  | cons v l ih => intro o; simp [ih]

lemma csRun_readFrameTr (m : Nat → Nat) (a n : Nat) :
    csRun false (readFrameTr m a n) = some false := by
  rw [readFrameTr]
  simp only [List.cons_append, List.nil_append, csRun_csT, if_false, csRun_x,
    Bool.false_eq_true]
  rw [csRun_append, csRun_readTrGo]
  rfl

lemma csRun_chunkTr (d bet a : Nat) (buf : List Nat) :
    csRun false (chunkTr d bet a buf) = some false := by
  rw [chunkTr]
  simp only [stFrameTr, List.cons_append, List.nil_append, List.append_assoc, csRun_csT,
    csRun_csF, csRun_x, Bool.false_eq_true, if_false]
  rw [csRun_append, csRun_mapx]
  simp [csRun_pollTr]

lemma csRun_upTr (d : Nat) :
    ∀ (n bet addr : Nat) (data : List Nat), csRun false (upTr d bet n addr data) = some false := by
  intro n
  induction n with
  | zero => intro bet addr data; rfl
  | succ n ih =>
    intro bet addr data
    rw [upTr, csRun_append, csRun_chunkTr]
    simp [ih]

lemma csRun_promTr (m : Nat → Nat) :
    ∀ (n addr : Nat), csRun false (promTr m n addr) = some false := by
  intro n
  induction n with
  | zero => intro addr; rfl
  | succ n ih =>
    intro addr
    rw [promTr, csRun_append, csRun_append, csRun_readFrameTr]
    simp [ih]

@[simp] lemma sentBlocks_nil : sentBlocks [] = [] := rfl

@[simp] lemma sentBlocks_cons_cs (b : Bool) (rest : List Ev) :
    sentBlocks (Ev.cs b :: rest) = sentBlocks rest := rfl

@[simp] lemma sentBlocks_cons_x (v r : Nat) (rest : List Ev) :
    sentBlocks (Ev.x v r :: rest) = sentBlocks rest := rfl

@[simp] lemma sentBlocks_cons_pow (b : Bool) (rest : List Ev) :
    sentBlocks (Ev.pow b :: rest) = sentBlocks rest := rfl

@[simp] lemma sentBlocks_cons_xmInit (b : Bool) (rest : List Ev) :
    sentBlocks (Ev.xmInit b :: rest) = sentBlocks rest := rfl

@[simp] lemma sentBlocks_cons_xmSend (p : List Nat) (b : Bool) (rest : List Ev) :
    sentBlocks (Ev.xmSend p b :: rest) = p :: sentBlocks rest := rfl

@[simp] lemma sentBlocks_cons_xmFini (rest : List Ev) :
    sentBlocks (Ev.xmFini :: rest) = sentBlocks rest := rfl

lemma sentBlocks_append (a b : List Ev) :
    sentBlocks (a ++ b) = sentBlocks a ++ sentBlocks b := by
  simp [sentBlocks]

lemma sentBlocks_readTrGo (m : Nat → Nat) (A : Nat) :
    ∀ (n k : Nat), sentBlocks (readTrGo m A k n) = [] := by
  intro n
  induction n with
  | zero => intro k; rfl
  | succ n ih => intro k; rw [readTrGo]; simp [ih]

lemma sentBlocks_readFrameTr (m : Nat → Nat) (a n : Nat) :
    sentBlocks (readFrameTr m a n) = [] := by
  rw [readFrameTr]
  simp [sentBlocks_append, sentBlocks_readTrGo]

lemma sentBlocks_promTr (m : Nat → Nat) :
    ∀ (n addr : Nat),
      sentBlocks (promTr m n addr)
        = (List.range n).map (fun k => readOut m (addr + chunk_size * k) chunk_size) := by
  intro n
  induction n with
  | zero => intro addr; rfl
  | succ n ih =>
    intro addr
    rw [promTr]
    rw [sentBlocks_append, sentBlocks_append, sentBlocks_readFrameTr, ih]
    rw [List.range_succ_eq_map]
    simp only [List.nil_append, sentBlocks_cons_xmSend, sentBlocks_nil, List.map_cons,
      List.map_map, Nat.mul_zero, Nat.add_zero, List.cons_append]
    have hmap : List.map (fun k => readOut m (addr + chunk_size + chunk_size * k) chunk_size)
        (List.range n)
        = List.map ((fun k => readOut m (addr + chunk_size * k) chunk_size) ∘ Nat.succ)
            (List.range n) := by
      apply List.map_congr_left
      intro k _
      simp only [Function.comp_apply]
      rw [show addr + chunk_size + chunk_size * k = addr + chunk_size * k.succ from by
        rw [Nat.succ_eq_add_one]; ring]
    rw [hmap]

/-!
Invariance and inversion helpers: serial input consumption of the upload
loop and constructor shapes of the trace segments.
-/

lemma spi_cs_inp (b : Bool) (s : S) : (spi_cs b s).inp = s.inp := by
  unfold spi_cs
  cases b
  · cases h : s.frame <;> simp [h]
  · simp

lemma spi_send_inp (b : Nat) (s : S) : ((spi_send b s).2).inp = s.inp := by
  unfold spi_send
  cases h : s.frame <;> simp [h]

lemma spi_status_inp (s : S) : ((spi_status s).2).inp = s.inp := by
  unfold spi_status
  simp [spi_cs_inp, spi_send_inp]

lemma wip_wait_go_inp : ∀ (n : Nat) (s : S), (wip_wait_go n s).inp = s.inp := by
  intro n
  induction n with
  | zero => intro s; rfl
  | succ n ih =>
    intro s
    rw [wip_wait_go]
    by_cases h : (spi_status s).1 &&& 1 = 0
    · rw [if_pos h]; exact spi_status_inp s
    · rw [if_neg h, ih]; exact spi_status_inp s

lemma wip_wait_inp (s : S) : (wip_wait s).inp = s.inp := by
  rw [wip_wait]; exact wip_wait_go_inp _ s

lemma sendList_inp : ∀ (l : List Nat) (s : S), (sendList l s).inp = s.inp := by
  intro l
  induction l with
  | nil => intro s; rfl
  | cons v l ih => intro s; rw [sendList]; rw [ih, spi_send_inp]

lemma getN_some_shape :
    ∀ (n : Nat) (s : S) (l : List Nat) (s1 : S), getN n s = some (l, s1) →
      ∃ buf, s.inp = buf ++ s1.inp ∧ buf.length = n ∧ s1.chip = s.chip ∧ s1.frame = s.frame
        ∧ s1.pow = s.pow ∧ s1.ddrb = s.ddrb ∧ s1.out = s.out ∧ s1.tr = s.tr := by
  intro n
  induction n with
  | zero =>
    intro s l s1 h
    rw [getN] at h
    injection h with h
    injection h with h1 h2
    subst h2
    exact ⟨[], by simp⟩
  | succ n ih =>
    intro s l s1 h
    rw [getN] at h
    cases hin : s.inp with
    | nil => rw [usb_serial_getchar, hin] at h; cases h
    | cons c rest =>
      rw [usb_serial_getchar, hin] at h
      simp only at h
      cases hg : getN n { s with inp := rest } with
      | none => rw [hg] at h; cases h
      | some p =>
        rw [hg] at h
        obtain ⟨l2, s2⟩ := p
        injection h with h
        injection h with h1 h2
        subst h2
        obtain ⟨buf, hb1, hb2, hrest⟩ := ih _ _ _ hg
        dsimp only at hb1 hrest
        exact ⟨c :: buf, by simp [hin, hb1], by simp [hb2], hrest⟩

lemma uploadChunk_some_inp (addr : Nat) (s s' : S) (h : uploadChunk addr s = some s') :
    ∃ buf, s.inp = buf ++ s'.inp ∧ buf.length = chunk_size := by
  rw [uploadChunk] at h
  cases hg : getN chunk_size s with
  | none => rw [hg] at h; cases h
  | some p =>
    rw [hg] at h
    obtain ⟨l, s1⟩ := p
    simp only at h
    injection h with h
    obtain ⟨buf, hb1, hb2, hrest⟩ := getN_some_shape _ _ _ _ hg
    refine ⟨buf, ?_, hb2⟩
    rw [hb1]
    have : s'.inp = s1.inp := by
      rw [← h]
      simp [usb_serial_putchar, wip_wait_inp, spi_cs_inp, sendList_inp, spi_send_inp,
        spi_status_inp]
    rw [this]

lemma uploadLoop_some_inp :
    ∀ (n addr : Nat) (s s' : S), uploadLoop n addr s = some s' →
      ∃ data, s.inp = data ++ s'.inp ∧ data.length = chunk_size * n := by
  intro n
  induction n with
  | zero =>
    intro addr s s' h
    rw [uploadLoop] at h
    injection h with h
    subst h
    exact ⟨[], by simp⟩
  | succ n ih =>
    intro addr s s' h
    rw [uploadLoop] at h
    cases hc : uploadChunk addr s with
    | none => rw [hc] at h; cases h
    | some s1 =>
      rw [hc] at h
      obtain ⟨buf, hb1, hb2⟩ := uploadChunk_some_inp addr s s1 hc
      obtain ⟨data, hd1, hd2⟩ := ih _ _ _ h
      refine ⟨buf ++ data, ?_, ?_⟩
      · rw [hb1, hd1, List.append_assoc]
      · rw [List.length_append, hb2, hd2]
        ring

lemma spi_upload_some_shape (m ib : Nat → Nat) (b d : Nat) (pw : Bool) (db : Nat)
    (inp out : List Nat) (tr : List Ev) (s' : S)
    (h : spi_upload (S.mk (Chip.mk m ib true b d) none pw db inp out tr) = some s') :
    ∃ addr data rest, readhexAux 0 inp = some (addr, data ++ rest) ∧ data.length = 4096 := by
  rw [spi_upload, usb_serial_readhex] at h
  cases hh : readhexAux 0 inp with
  | none => simp [hh] at h
  | some p =>
    obtain ⟨addr, inp1⟩ := p
    simp only [hh] at h
    rw [spi_status_run] at h
    simp only [statusByte_and_two, if_true] at h
    rw [if_neg (by decide)] at h
    cases hu : uploadLoop 32 addr (usb_serial_putchar 71
        (S.mk (Chip.mk m ib true (b - 1) d) none pw db inp1 out (tr ++ stFrameTr true b))) with
    | none => rw [hu] at h; cases h
    | some s3 =>
      obtain ⟨data, hd1, hd2⟩ := uploadLoop_some_inp _ _ _ _ hu
      simp only [usb_serial_putchar] at hd1
      exact ⟨addr, data, s3.inp, by simp [hh, hd1], by simpa using hd2⟩

lemma mem_readTrGo (m : Nat → Nat) (A : Nat) :
    ∀ (n k : Nat) (e : Ev), e ∈ readTrGo m A k n → ∃ v r, e = Ev.x v r := by
  intro n
  induction n with
  | zero => intro k e h; cases h
  | succ n ih =>
    intro k e h
    rw [readTrGo] at h
    rcases List.mem_cons.mp h with h | h
    · exact ⟨_, _, h⟩
    · exact ih (k + 1) e h

lemma mem_readFrameTr (m : Nat → Nat) (a n : Nat) (e : Ev) (h : e ∈ readFrameTr m a n) :
    (∃ bo, e = Ev.cs bo) ∨ ∃ v r, e = Ev.x v r := by
  rw [readFrameTr] at h
  rcases List.mem_append.mp h with h | h
  · rcases List.mem_append.mp h with h | h
    · simp only [List.mem_cons, List.not_mem_nil, or_false] at h
      rcases h with h | h | h | h | h
      · exact Or.inl ⟨true, h⟩
      · exact Or.inr ⟨_, _, h⟩
      · exact Or.inr ⟨_, _, h⟩
      · exact Or.inr ⟨_, _, h⟩
      · exact Or.inr ⟨_, _, h⟩
    · exact Or.inr (mem_readTrGo m (addrVal a) n 0 e h)
  · simp only [List.mem_singleton] at h
    exact Or.inl ⟨false, h⟩

lemma mem_promTr (m : Nat → Nat) :
    ∀ (n addr : Nat) (e : Ev), e ∈ promTr m n addr →
      (∃ bo, e = Ev.cs bo) ∨ (∃ v r, e = Ev.x v r) ∨ ∃ p, e = Ev.xmSend p true := by
  intro n
  induction n with
  | zero => intro addr e h; cases h
  | succ n ih =>
    intro addr e h
    rw [promTr] at h
    simp only [List.mem_append, List.mem_singleton] at h
    rcases h with (h | h) | h
    · rcases mem_readFrameTr m addr chunk_size e h with h | h
      · exact Or.inl h
      · exact Or.inr (Or.inl h)
    · exact Or.inr (Or.inr ⟨_, h⟩)
    · exact ih _ e h

/-!
Chip-select discipline: every completed operation keeps the trace
well-framed (chip-select is never asserted while a frame is open, and
every opened frame is closed again).
-/

/-- Well-framedness of a state: no frame is open and the whole trace
respects the chip-select discipline, ending with chip-select released. -/
def csOkS (s : S) : Prop :=
  s.frame = none ∧ csRun false s.tr = some false

lemma csRun_ext (tr de : List Ev) (h1 : csRun false tr = some false)
    (h2 : csRun false de = some false) : csRun false (tr ++ de) = some false := by
  rw [csRun_append, h1]
  exact h2

lemma csP_rdid (s : S) (h : csOkS s) : csOkS (spi_rdid s) := by
  obtain ⟨⟨m, ib, w, b, d⟩, fr, pw, db, inp, out, tr⟩ := s
  obtain ⟨h1, h2⟩ := h
  have h1' : fr = none := h1
  subst h1'
  rw [spi_rdid_run]
  exact ⟨rfl, csRun_ext _ _ h2 rfl⟩

lemma csP_wren (s : S) (h : csOkS s) : csOkS (spi_write_enable s) := by
  obtain ⟨⟨m, ib, w, b, d⟩, fr, pw, db, inp, out, tr⟩ := s
  obtain ⟨h1, h2⟩ := h
  have h1' : fr = none := h1
  subst h1'
  rw [spi_write_enable_run]
  refine ⟨rfl, ?_⟩
  exact csRun_ext _ _ (csRun_ext _ _ (csRun_ext _ _ (csRun_ext _ _ h2 rfl)
    (csRun_stFrameTr w b)) rfl) (csRun_stFrameTr true (b - 1))

lemma spi_read_none (s : S) (hn : readhexAux 0 s.inp = none) : spi_read s = none := by
  rw [spi_read, usb_serial_readhex, hn]

lemma spi_erase_sector_none (s : S) (hn : readhexAux 0 s.inp = none) :
    spi_erase_sector s = none := by
  rw [spi_erase_sector, usb_serial_readhex, hn]

lemma spi_upload_none (s : S) (hn : readhexAux 0 s.inp = none) : spi_upload s = none := by
  rw [spi_upload, usb_serial_readhex, hn]

lemma csP_read (s s' : S) (h : csOkS s) (hm : spi_read s = some s') : csOkS s' := by
  obtain ⟨⟨m, ib, w, b, d⟩, fr, pw, db, inp, out, tr⟩ := s
  obtain ⟨h1, h2⟩ := h
  have h1' : fr = none := h1
  subst h1'
  cases hh : readhexAux 0 inp with
  | none => rw [spi_read_none _ hh] at hm; cases hm
  | some p =>
    obtain ⟨addr, inp1⟩ := p
    rw [spi_read_run m ib w b d pw db inp inp1 out tr addr hh] at hm
    injection hm with hm
    subst hm
    refine ⟨rfl, ?_⟩
    exact csRun_ext _ _ (csRun_ext _ _ (csRun_ext _ _ h2 rfl)
      (csRun_readFrameTr m addr 16)) rfl

lemma csP_erase (s s' : S) (h : csOkS s) (hm : spi_erase_sector s = some s') : csOkS s' := by
  obtain ⟨⟨m, ib, w, b, d⟩, fr, pw, db, inp, out, tr⟩ := s
  obtain ⟨h1, h2⟩ := h
  have h1' : fr = none := h1
  subst h1'
  cases hh : readhexAux 0 inp with
  | none => rw [spi_erase_sector_none _ hh] at hm; cases hm
  | some p =>
    obtain ⟨addr, inp1⟩ := p
    cases w with
    | false =>
      rw [spi_erase_sector_run_wp m ib b d pw db inp inp1 out tr addr hh] at hm
      injection hm with hm
      subst hm
      exact ⟨rfl, csRun_ext _ _ h2 (csRun_stFrameTr false b)⟩
    | true =>
      rw [spi_erase_sector_run_ok m ib b d pw db inp inp1 out tr addr hh] at hm
      injection hm with hm
      subst hm
      refine ⟨rfl, ?_⟩
      exact csRun_ext _ _ (csRun_ext _ _ (csRun_ext _ _ h2 (csRun_stFrameTr true b)) rfl)
        (csRun_pollTr false d)

lemma csP_upload (s s' : S) (h : csOkS s) (hm : spi_upload s = some s') : csOkS s' := by
  obtain ⟨⟨m, ib, w, b, d⟩, fr, pw, db, inp, out, tr⟩ := s
  obtain ⟨h1, h2⟩ := h
  have h1' : fr = none := h1
  subst h1'
  cases hh : readhexAux 0 inp with
  | none => rw [spi_upload_none _ hh] at hm; cases hm
  | some p =>
    obtain ⟨addr, inp1⟩ := p
    cases w with
    | false =>
      rw [spi_upload_run_wp m ib b d pw db inp inp1 out tr addr hh] at hm
      injection hm with hm
      subst hm
      exact ⟨rfl, csRun_ext _ _ h2 (csRun_stFrameTr false b)⟩
    | true =>
      obtain ⟨addr2, data, rest, hh2, hlen⟩ :=
        spi_upload_some_shape m ib b d pw db inp out tr s' hm
      rw [spi_upload_run_ok m ib b d pw db inp data rest out tr addr2 hh2 hlen] at hm
      injection hm with hm
      subst hm
      refine ⟨rfl, ?_⟩
      exact csRun_ext _ _ (csRun_ext _ _ h2 (csRun_stFrameTr true b))
        (csRun_upTr d 32 (b - 1) addr2 data)

lemma csP_prom (io : Bool) (so : Nat → Bool) (s : S) (h : csOkS s) :
    csOkS (prom_send io so s) := by
  obtain ⟨⟨m, ib, w, b, d⟩, fr, pw, db, inp, out, tr⟩ := s
  obtain ⟨h1, h2⟩ := h
  have h1' : fr = none := h1
  subst h1'
  cases io with
  | false =>
    rw [prom_send_run_none false so _ pw db inp out tr rfl]
    exact ⟨rfl, csRun_ext _ _ h2 rfl⟩
  | true =>
    by_cases hall : ∀ k, k < 65536 → so (chunk_size * k) = true
    · rw [prom_send_run_ok m ib w b d pw db inp out tr so hall]
      refine ⟨rfl, ?_⟩
      exact csRun_ext _ _ (csRun_ext _ _ (csRun_ext _ _ h2 rfl) (csRun_promTr m 65536 0)) rfl
    · have hex : ∃ k, k < 65536 ∧ so (chunk_size * k) = false := by
        push_neg at hall
        obtain ⟨k, hk1, hk2⟩ := hall
        exact ⟨k, hk1, by simpa using hk2⟩
      classical
      have hspec := Nat.find_spec hex
      have hok : ∀ k, k < Nat.find hex → so (chunk_size * k) = true := by
        intro k hk
        have := Nat.find_min hex hk
        simp only [not_and_or, Bool.not_eq_false] at this
        rcases this with hcon | hcon
        · omega
        · exact hcon
      rw [prom_send_run_fail m ib w b d pw db inp out tr so (Nat.find hex) hspec.1 hok hspec.2]
      refine ⟨rfl, ?_⟩
      exact csRun_ext _ _ (csRun_ext _ _ (csRun_ext _ _ (csRun_ext _ _ h2 rfl)
        (csRun_promTr m (Nat.find hex) 0))
        (csRun_readFrameTr m (chunk_size * Nat.find hex) chunk_size)) rfl

lemma csP_mainStep (io : Bool) (so : Nat → Bool) (s s' : S) (h : csOkS s)
    (hm : mainStep io so s = some s') : csOkS s' := by
  obtain ⟨c0, fr, pw, db, inp, out, tr⟩ := s
  rw [mainStep] at hm
  cases inp with
  | nil => cases hm
  | cons c rest =>
    rw [show usb_serial_getchar (usb_serial_putchar 62 (S.mk c0 fr pw db (c :: rest) out tr))
        = some (c, S.mk c0 fr pw db rest (out ++ [62]) tr) from rfl] at hm
    simp only at hm
    have h2 : csOkS (S.mk c0 fr pw db rest (out ++ [62]) tr) := h
    rw [dispatch] at hm
    split_ifs at hm
    · injection hm with hm; subst hm; exact csP_rdid _ h2
    · exact csP_read _ _ h2 hm
    · injection hm with hm; subst hm; exact csP_wren _ h2
    · exact csP_erase _ _ h2 hm
    · exact csP_upload _ _ h2 hm
    · injection hm with hm; subst hm
      exact csP_prom io so _ h2
    · injection hm with hm; subst hm; exact h2
    · injection hm with hm; subst hm; exact h2

lemma addrVal_eq (a : Nat) : addrVal a = a % 16777216 := by
  unfold addrVal
  simp only [Nat.shiftRight_eq_div_pow]
  omega

lemma foldl_addrBytes (a : Nat) :
    (addrBytes a).foldl (fun v c => v * 256 + c) 0 = a % 16777216 := by
  rw [← addrVal_eq]
  simp only [addrBytes, List.foldl_cons, List.foldl_nil, addrVal]
  ring

lemma frames_eraseFrameTr (a : Nat) (rest : List Ev) :
    framesAux none (eraseFrameTr a ++ rest) = (32 :: addrBytes a) :: framesAux none rest := by
  simp [eraseFrameTr, addrBytes]

lemma pow_false_not_mem_promTr (m : Nat → Nat) (n addr : Nat) :
    Ev.pow false ∉ promTr m n addr := by
  intro h
  rcases mem_promTr m n addr _ h with ⟨bo, hb⟩ | ⟨v, r, hb⟩ | ⟨p, hb⟩ <;> cases hb

lemma xmFini_not_mem_promTr (m : Nat → Nat) (n addr : Nat) :
    Ev.xmFini ∉ promTr m n addr := by
  intro h
  rcases mem_promTr m n addr _ h with ⟨bo, hb⟩ | ⟨v, r, hb⟩ | ⟨p, hb⟩ <;> cases hb

lemma pow_false_not_mem_readFrameTr (m : Nat → Nat) (a n : Nat) :
    Ev.pow false ∉ readFrameTr m a n := by
  intro h
  rcases mem_readFrameTr m a n _ h with ⟨bo, hb⟩ | ⟨v, r, hb⟩ <;> cases hb

lemma xmFini_not_mem_readFrameTr (m : Nat → Nat) (a n : Nat) :
    Ev.xmFini ∉ readFrameTr m a n := by
  intro h
  rcases mem_readFrameTr m a n _ h with ⟨bo, hb⟩ | ⟨v, r, hb⟩ <;> cases hb

/-!
Claim theorems.
-/

/-- C2: for every execution of spi_write_enable (command 'w'), the status
register read immediately after the 0x06 frame has WEL = 1 (its AND with
bit mask 2 is 2), so the branch that would append '!' to the response is
never taken: the response is exactly the two status bytes in hex
separated by a space, followed by CRLF, with no '!'. -/
theorem claim_C2 (m ib : Nat → Nat) (w : Bool) (b d : Nat) (pw : Bool) (db : Nat)
    (inp out : List Nat) (tr : List Ev) :
    spi_write_enable (S.mk (Chip.mk m ib w b d) none pw db inp out tr)
      = S.mk (Chip.mk m ib true (b - 1 - 1) d) none true db inp
          (out ++ [hexdigit (statusByte w b >>> 4), hexdigit (statusByte w b), 32,
            hexdigit (statusByte true (b - 1) >>> 4), hexdigit (statusByte true (b - 1)), 13, 10])
          (tr ++ [Ev.pow true] ++ stFrameTr w b ++ [Ev.cs true, Ev.x 6 0, Ev.cs false]
            ++ stFrameTr true (b - 1))
    ∧ statusByte true (b - 1) &&& 2 = 2 := by
  refine ⟨spi_write_enable_run m ib w b d pw db inp out tr, ?_⟩
  rw [statusByte_and_two]
  simp

/-- C3: the hex parser accumulates nibbles from 0-9, A-F, a-f and returns
on the first non-hex byte, consuming that byte: on a stream of hex
digits ds followed by a non-hex terminator t and a remainder, it returns
the accumulated value and leaves exactly the remainder.  On the stream
"1A2B," it returns 0x1A2B = 6699 with the ',' consumed, and on "zz\r"
(first byte not a hex digit) it returns 0 with only the first 'z'
consumed. -/
theorem claim_C3 :
    (∀ (ch : Chip) (fr : Option (List Nat)) (pw : Bool) (db : Nat)
       (ds : List Nat) (t : Nat) (rest out : List Nat) (tr : List Ev),
       (∀ c ∈ ds, isHexDigit c) → ¬ isHexDigit t →
       usb_serial_readhex (S.mk ch fr pw db (ds ++ t :: rest) out tr)
         = some (hexVal ds, S.mk ch fr pw db rest out tr))
  ∧ readhexAux 0 [49, 65, 50, 66, 44] = some (6699, [])
  ∧ readhexAux 0 [122, 122, 13] = some (0, [122, 13]) := by
  refine ⟨?_, by decide, by decide⟩
  intro ch fr pw db ds t rest out tr hds ht
  rw [usb_serial_readhex]
  simp only [readhexAux_run ds 0 t rest hds ht]
  rfl

/-- Witness for C3 at a concrete input: digits "1A" terminated by ','. -/
theorem wit_C3 :
    ((∀ c ∈ [49, 65], isHexDigit c) ∧ ¬ isHexDigit 44)
  ∧ usb_serial_readhex (S.mk (Chip.mk (fun _ => 255) (fun _ => 0) false 0 0) none false 0
        ([49, 65] ++ 44 :: [13]) [] [])
      = some (hexVal [49, 65],
          S.mk (Chip.mk (fun _ => 255) (fun _ => 0) false 0 0) none false 0 [13] [] []) :=
  ⟨⟨by decide, by decide⟩,
   claim_C3.1 (Chip.mk (fun _ => 255) (fun _ => 0) false 0 0) none false 0
     [49, 65] 44 [13] [] [] (by decide) (by decide)⟩

/-- C5: for every parsed address, the 'r' command powers the chip, opens
one frame that sends opcode 0x03 and the 3 address bytes MSB-first,
performs 16 dummy exchanges reading 16 bytes, closes the frame, powers
off, and responds with the 16 bytes as hex byte-pairs each followed by a
space (so the pairs are space-separated, with a trailing space before
the CRLF). -/
theorem claim_C5 (m ib : Nat → Nat) (w : Bool) (b d : Nat) (pw : Bool) (db : Nat)
    (inp inp1 out : List Nat) (tr : List Ev) (addr : Nat)
    (h : readhexAux 0 inp = some (addr, inp1)) :
    spi_read (S.mk (Chip.mk m ib w b d) none pw db inp out tr)
      = some (S.mk (Chip.mk m ib w b d) none false db inp1
          (out ++ hexLine (readOut m addr 16))
          (tr ++ [Ev.pow true] ++ readFrameTr m addr 16 ++ [Ev.pow false]))
    ∧ frames (readFrameTr m addr 16) = [3 :: (addrBytes addr ++ List.replicate 16 0)] := by
  refine ⟨spi_read_run m ib w b d pw db inp inp1 out tr addr h, ?_⟩
  have h2 := frames_readFrameTr m addr 16 []
  simpa [frames] using h2

/-- Witness for C5 at a concrete input: address 0 parsed from "0\r". -/
theorem wit_C5 :
    readhexAux 0 [48, 13] = some (0, [])
  ∧ (spi_read (S.mk (Chip.mk (fun _ => 255) (fun _ => 0) false 0 0) none false 0 [48, 13] [] [])
      = some (S.mk (Chip.mk (fun _ => 255) (fun _ => 0) false 0 0) none false 0 []
          ([] ++ hexLine (readOut (fun _ => 255) 0 16))
          ([] ++ [Ev.pow true] ++ readFrameTr (fun _ => 255) 0 16 ++ [Ev.pow false]))
    ∧ frames (readFrameTr (fun _ => 255) 0 16)
        = [3 :: (addrBytes 0 ++ List.replicate 16 0)]) :=
  ⟨by decide,
   claim_C5 (fun _ => 255) (fun _ => 0) false 0 0 false 0 [48, 13] [] [] [] 0 (by decide)⟩

/-- C9: for every command byte other than 'i', 'r', 'w', 'e', 'u', 'x'
and the transfer-protocol trigger byte, one dispatcher iteration prints
the prompt '>', consumes exactly the command byte, emits '?' exactly
once, and changes nothing else: no SPI event is traced, no frame is
opened, the chip and the remaining input are untouched. -/
theorem claim_C9 (io : Bool) (so : Nat → Bool) (c : Nat) (ch : Chip)
    (fr : Option (List Nat)) (pw : Bool) (db : Nat) (rest out : List Nat) (tr : List Ev)
    (h1 : c ≠ 105) (h2 : c ≠ 114) (h3 : c ≠ 119) (h4 : c ≠ 101) (h5 : c ≠ 117)
    (h6 : c ≠ XMODEM_NAK) (h7 : c ≠ 120) :
    mainStep io so (S.mk ch fr pw db (c :: rest) out tr)
      = some (S.mk ch fr pw db rest (out ++ [62, 63]) tr) := by
  rw [mainStep]
  rw [show usb_serial_getchar (usb_serial_putchar 62 (S.mk ch fr pw db (c :: rest) out tr))
      = some (c, S.mk ch fr pw db rest (out ++ [62]) tr) from rfl]
  simp only
  rw [dispatch, if_neg h1, if_neg h2, if_neg h3, if_neg h4, if_neg h5, if_neg h6, if_neg h7]
  simp [usb_serial_putchar]

/-- Witness for C9 at the concrete unknown byte 'z' (0x7A). -/
theorem wit_C9 :
    ((122 : Nat) ≠ 105 ∧ (122 : Nat) ≠ XMODEM_NAK ∧ (122 : Nat) ≠ 120)
  ∧ mainStep false (fun _ => true)
      (S.mk (Chip.mk (fun _ => 255) (fun _ => 0) false 0 0) none false 0 [122, 13] [] [])
      = some (S.mk (Chip.mk (fun _ => 255) (fun _ => 0) false 0 0) none false 0 [13]
          ([] ++ [62, 63]) []) :=
  ⟨⟨by decide, by decide, by decide⟩,
   claim_C9 false (fun _ => true) 122 (Chip.mk (fun _ => 255) (fun _ => 0) false 0 0) none
     false 0 [13] [] [] (by decide) (by decide) (by decide) (by decide) (by decide)
     (by decide) (by decide)⟩

/-- C1: for the 'e' and 'u' commands, if the status register read at
entry has WEL (bit 1) clear, the operation emits "wp!" + CRLF and
returns having traced only that single status frame (frames [[5, 0]]),
so no erase (0x20) or program (0x02) frame is transmitted and the flash
memory is unchanged; and the failure occurs only then: with WEL set the
erase run responds with the 'E' line (never "wp!") and the upload run's
response starts with 'G' (never "wp!"). -/
theorem claim_C1 :
    (∀ (m ib : Nat → Nat) (b d : Nat) (pw : Bool) (db : Nat) (inp inp1 out : List Nat)
       (tr : List Ev) (addr : Nat), readhexAux 0 inp = some (addr, inp1) →
       spi_erase_sector (S.mk (Chip.mk m ib false b d) none pw db inp out tr)
         = some (S.mk (Chip.mk m ib false (b - 1) d) none pw db inp1 (out ++ wpStr)
             (tr ++ stFrameTr false b))
       ∧ frames (stFrameTr false b) = [[5, 0]])
  ∧ (∀ (m ib : Nat → Nat) (b d : Nat) (pw : Bool) (db : Nat) (inp inp1 out : List Nat)
       (tr : List Ev) (addr : Nat), readhexAux 0 inp = some (addr, inp1) →
       spi_upload (S.mk (Chip.mk m ib false b d) none pw db inp out tr)
         = some (S.mk (Chip.mk m ib false (b - 1) d) none pw db inp1 (out ++ wpStr)
             (tr ++ stFrameTr false b))
       ∧ frames (stFrameTr false b) = [[5, 0]])
  ∧ (∀ (m ib : Nat → Nat) (b d : Nat) (pw : Bool) (db : Nat) (inp inp1 out : List Nat)
       (tr : List Ev) (addr : Nat), readhexAux 0 inp = some (addr, inp1) →
       spi_erase_sector (S.mk (Chip.mk m ib true b d) none pw db inp out tr)
         = some (S.mk (Chip.mk (eraseMem m (addrVal addr)) ib false 0 d) none pw db inp1
             (out ++ eraseOut addr)
             (tr ++ stFrameTr true b ++ eraseFrameTr addr ++ pollTr false d))
       ∧ eraseOut addr ≠ wpStr)
  ∧ (∀ (m ib : Nat → Nat) (b d : Nat) (pw : Bool) (db : Nat) (inp out : List Nat)
       (tr : List Ev) (s' : S),
       spi_upload (S.mk (Chip.mk m ib true b d) none pw db inp out tr) = some s' →
       (∃ z, s'.out = out ++ 71 :: z) ∧ ∀ z : List Nat, (71 : Nat) :: z ≠ wpStr) := by
  refine ⟨?_, ?_, ?_, ?_⟩
  · intro m ib b d pw db inp inp1 out tr addr h
    exact ⟨spi_erase_sector_run_wp m ib b d pw db inp inp1 out tr addr h,
      by simp [frames, stFrameTr]⟩
  · intro m ib b d pw db inp inp1 out tr addr h
    exact ⟨spi_upload_run_wp m ib b d pw db inp inp1 out tr addr h,
      by simp [frames, stFrameTr]⟩
  · intro m ib b d pw db inp inp1 out tr addr h
    refine ⟨spi_erase_sector_run_ok m ib b d pw db inp inp1 out tr addr h, ?_⟩
    intro hcon
    have := congrArg List.length hcon
    simp [eraseOut, wpStr] at this
  · intro m ib b d pw db inp out tr s' hm
    obtain ⟨addr2, data, rest, hh2, hlen⟩ :=
      spi_upload_some_shape m ib b d pw db inp out tr s' hm
    rw [spi_upload_run_ok m ib b d pw db inp data rest out tr addr2 hh2 hlen] at hm
    injection hm with hm
    subst hm
    refine ⟨⟨List.replicate 32 46 ++ doneStr, rfl⟩, ?_⟩
    intro z hcon
    simp [wpStr] at hcon

/-- Witness for C1 at a concrete input: empty hex literal terminated by
CR, write-protected chip. -/
theorem wit_C1 :
    readhexAux 0 [13] = some (0, [])
  ∧ (spi_erase_sector (S.mk (Chip.mk (fun _ => 255) (fun _ => 0) false 0 0) none false 0
        [13] [] [])
      = some (S.mk (Chip.mk (fun _ => 255) (fun _ => 0) false 0 0) none false 0 []
          ([] ++ wpStr) ([] ++ stFrameTr false 0))
    ∧ frames (stFrameTr false 0) = [[5, 0]]) :=
  ⟨by decide,
   claim_C1.1 (fun _ => 255) (fun _ => 0) 0 0 false 0 [13] [] [] [] 0 (by decide)⟩

/-- C7: every operation that transmits an address (read 0x03, erase 0x20,
page program 0x02) sends exactly 3 address bytes MSB-first, namely
(addr >>> 16) % 256, (addr >>> 8) % 256, addr % 256, visible as the
bytes following the opcode in the transmitted frame; recombining them
MSB-first yields the parsed 32-bit value reduced modulo 2^24. -/
theorem claim_C7 :
    (∀ a : Nat, addrBytes a = [(a >>> 16) % 256, (a >>> 8) % 256, a % 256]
       ∧ (addrBytes a).foldl (fun v c => v * 256 + c) 0 = a % 16777216)
  ∧ (∀ (m ib : Nat → Nat) (w : Bool) (b d : Nat) (pw : Bool) (db : Nat)
       (inp inp1 out : List Nat) (addr : Nat) (s' : S),
       readhexAux 0 inp = some (addr, inp1) →
       spi_read (S.mk (Chip.mk m ib w b d) none pw db inp out []) = some s' →
       frames s'.tr = [3 :: (addrBytes addr ++ List.replicate 16 0)])
  ∧ (∀ (m ib : Nat → Nat) (b d : Nat) (pw : Bool) (db : Nat)
       (inp inp1 out : List Nat) (addr : Nat) (s' : S),
       readhexAux 0 inp = some (addr, inp1) →
       spi_erase_sector (S.mk (Chip.mk m ib true b d) none pw db inp out []) = some s' →
       frames s'.tr = [[5, 0], 32 :: addrBytes addr] ++ List.replicate (d + 1) [5, 0])
  ∧ (∀ (m ib : Nat → Nat) (w : Bool) (bet d : Nat) (pw : Bool) (db : Nat)
       (buf rest out : List Nat) (addr : Nat) (s' : S), buf.length = chunk_size →
       uploadChunk addr (S.mk (Chip.mk m ib w bet d) none pw db (buf ++ rest) out []) = some s' →
       frames s'.tr = [6] :: [5, 0] :: (2 :: (addrBytes addr ++ buf.map (fun v => v % 256)))
         :: List.replicate (d + 1) [5, 0]) := by
  refine ⟨?_, ?_, ?_, ?_⟩
  · intro a
    exact ⟨rfl, foldl_addrBytes a⟩
  · intro m ib w b d pw db inp inp1 out addr s' h hm
    rw [spi_read_run m ib w b d pw db inp inp1 out [] addr h] at hm
    injection hm with hm
    subst hm
    have h2 := frames_readFrameTr m addr 16 [Ev.pow false]
    simp only [framesAux_pow, framesAux_nil_none] at h2
    simpa [frames] using h2
  · intro m ib b d pw db inp inp1 out addr s' h hm
    rw [spi_erase_sector_run_ok m ib b d pw db inp inp1 out [] addr h] at hm
    injection hm with hm
    subst hm
    show frames ([] ++ stFrameTr true b ++ eraseFrameTr addr ++ pollTr false d) = _
    rw [frames]
    simp only [List.nil_append, List.append_assoc]
    rw [frames_stFrameTr, frames_eraseFrameTr]
    have h2 := frames_pollTr false d []
    simp only [List.append_nil, framesAux_nil_none] at h2
    rw [h2]
    simp
  · intro m ib w bet d pw db buf rest out addr s' hlen hm
    rw [uploadChunk_run m ib w bet d pw db out [] addr buf rest hlen] at hm
    injection hm with hm
    subst hm
    show frames ([] ++ chunkTr d bet addr (buf.map (fun v => v % 256))) = _
    rw [frames]
    simp only [List.nil_append]
    have h2 := frames_chunkTr d bet addr (buf.map (fun v => v % 256)) []
    simp only [List.append_nil, framesAux_nil_none] at h2
    rw [h2]

/-- Witness for C7 at a concrete address: read of address 0x123456. -/
theorem wit_C7 :
    readhexAux 0 [49, 50, 51, 52, 53, 54, 13] = some (1193046, [])
  ∧ ((addrBytes 1193046).foldl (fun v c => v * 256 + c) 0 = 1193046 % 16777216)
  ∧ ∀ s' : S,
      spi_read (S.mk (Chip.mk (fun _ => 255) (fun _ => 0) false 0 0) none false 0
        [49, 50, 51, 52, 53, 54, 13] [] []) = some s' →
      frames s'.tr = [3 :: (addrBytes 1193046 ++ List.replicate 16 0)] :=
  ⟨by decide, (claim_C7.1 1193046).2,
   fun s' hm => claim_C7.2.1 (fun _ => 255) (fun _ => 0) false 0 0 false 0
     [49, 50, 51, 52, 53, 54, 13] [] [] 1193046 s' (by decide) hm⟩

/-- C4: a bulk dump whose transfer-protocol calls all succeed runs over
the address range [0, 8 MiB) in chunk_size = 128 byte chunks: its trace
is session init, power on, 65536 READ-frame-plus-block-send pairs, power
off, session close; the sent payloads are exactly the results of direct
readBytes calls over the same ranges, one block per chunk, and the READ
frames carry the addresses 128 * k for k = 0 .. 65535 in strictly
increasing order (each transmitted address recombining to 128 * k). -/
theorem claim_C4 (m ib : Nat → Nat) (w : Bool) (b d : Nat) (pw : Bool) (db : Nat)
    (inp out : List Nat) (so : Nat → Bool)
    (hok : ∀ k, k < 65536 → so (chunk_size * k) = true) :
    prom_send true so (S.mk (Chip.mk m ib w b d) none pw db inp out [])
      = S.mk (Chip.mk m ib w b d) none false db inp out
          ([Ev.xmInit true, Ev.pow true] ++ promTr m 65536 0 ++ [Ev.pow false, Ev.xmFini])
    ∧ sentBlocks ([Ev.xmInit true, Ev.pow true] ++ promTr m 65536 0
        ++ [Ev.pow false, Ev.xmFini])
      = (List.range 65536).map (fun k =>
          (readBytes (chunk_size * k) chunk_size
            (S.mk (Chip.mk m ib w b d) none pw db inp out [])).1)
    ∧ frames ([Ev.xmInit true, Ev.pow true] ++ promTr m 65536 0 ++ [Ev.pow false, Ev.xmFini])
      = (List.range 65536).map (fun k =>
          3 :: (addrBytes (chunk_size * k) ++ List.replicate chunk_size 0))
    ∧ (∀ k, k < 65536 →
        (addrBytes (chunk_size * k)).foldl (fun v c => v * 256 + c) 0 = chunk_size * k) := by
  refine ⟨?_, ?_, ?_, ?_⟩
  · have h := prom_send_run_ok m ib w b d pw db inp out [] so hok
    simpa using h
  · rw [show ([Ev.xmInit true, Ev.pow true] ++ promTr m 65536 0 ++ [Ev.pow false, Ev.xmFini])
        = Ev.xmInit true :: Ev.pow true :: (promTr m 65536 0 ++ [Ev.pow false, Ev.xmFini])
        from by simp]
    simp only [sentBlocks_cons_xmInit, sentBlocks_cons_pow, sentBlocks_cons_xmFini,
      sentBlocks_nil, sentBlocks_append, sentBlocks_promTr]
    rw [List.append_nil]
    apply List.map_congr_left
    intro k _
    rw [readBytes_run]
    simp
  · rw [frames]
    rw [show ([Ev.xmInit true, Ev.pow true] ++ promTr m 65536 0 ++ [Ev.pow false, Ev.xmFini])
        = Ev.xmInit true :: Ev.pow true :: (promTr m 65536 0 ++ [Ev.pow false, Ev.xmFini])
        from by simp]
    simp only [framesAux_xmInit, framesAux_pow]
    rw [frames_promTr]
    rw [show framesAux none [Ev.pow false, Ev.xmFini] = [] from rfl]
    rw [List.append_nil]
    apply List.map_congr_left
    intro k _
    simp
  · intro k hk
    rw [foldl_addrBytes]
    apply Nat.mod_eq_of_lt
    unfold chunk_size
    omega

/-- Witness for C4: all block sends succeed. -/
theorem wit_C4 :
    (∀ k, k < 65536 → (fun _ => true : Nat → Bool) (chunk_size * k) = true)
  ∧ prom_send true (fun _ => true)
      (S.mk (Chip.mk (fun _ => 255) (fun _ => 0) false 0 0) none false 0 [] [] [])
      = S.mk (Chip.mk (fun _ => 255) (fun _ => 0) false 0 0) none false 0 [] []
          ([Ev.xmInit true, Ev.pow true] ++ promTr (fun _ => 255) 65536 0
           ++ [Ev.pow false, Ev.xmFini]) :=
  ⟨fun _ _ => rfl,
   (claim_C4 (fun _ => 255) (fun _ => 0) false 0 0 false 0 [] [] (fun _ => true)
     (fun _ _ => rfl)).1⟩

/-- C6 counterexample: on a concrete write-enabled run of the 'u' command
the serial response is 'G' followed by the 32 dots and "done!" + CRLF,
not the dots and "done!" alone: the go-ahead byte 'G' precedes them. -/
theorem cex_C6 :
    Option.map S.out (spi_upload (S.mk (Chip.mk (fun _ => 255) (fun _ => 0) true 0 0) none
        false 0 (48 :: 13 :: (List.replicate 4096 0 ++ [])) [] []))
      = some (71 :: (List.replicate 32 46 ++ doneStr))
    ∧ 71 :: (List.replicate 32 46 ++ doneStr) ≠ List.replicate 32 46 ++ doneStr := by
  constructor
  · rw [spi_upload_run_ok (fun _ => 255) (fun _ => 0) 0 0 false 0
      (48 :: 13 :: (List.replicate 4096 0 ++ [])) (List.replicate 4096 0) [] [] [] 0
      rfl (List.length_replicate 4096 0)]
    rfl
  · decide

/-- C6 (amended): for the 'u' command with WEL set at the initial check,
the firmware first emits the go-ahead byte 'G', then covers exactly 4096
raw input bytes in 32 chunks of chunk_size = 128 bytes; each chunk's
trace is a write-enable frame (0x06), a status frame, a page-program
frame (0x02 + address + the chunk), then the WIP-poll frames, and the
response after the 'G' is exactly one '.' per chunk followed by "done!"
+ CRLF. -/
theorem claim_C6 (m ib : Nat → Nat) (b d : Nat) (pw : Bool) (db : Nat)
    (inp data rest out : List Nat) (tr : List Ev) (addr : Nat)
    (h : readhexAux 0 inp = some (addr, data ++ rest)) (hlen : data.length = 4096) :
    spi_upload (S.mk (Chip.mk m ib true b d) none pw db inp out tr)
      = some (S.mk (Chip.mk (upMem m 32 addr data) ib false 0 d) none pw db rest
          (out ++ 71 :: (List.replicate 32 46 ++ doneStr))
          (tr ++ stFrameTr true b ++ upTr d (b - 1) 32 addr data))
    ∧ frames (stFrameTr true b ++ upTr d (b - 1) 32 addr data)
        = [5, 0] :: upFrames d 32 addr data := by
  refine ⟨spi_upload_run_ok m ib b d pw db inp data rest out tr addr h hlen, ?_⟩
  rw [frames, frames_stFrameTr]
  have h2 := frames_upTr d 32 (b - 1) addr data []
  simp only [List.append_nil, framesAux_nil_none] at h2
  rw [h2]

/-- Witness for C6 at a concrete input: address 0, 4096 bytes of 0x07. -/
theorem wit_C6 :
    (readhexAux 0 (48 :: 13 :: (List.replicate 4096 7 ++ []))
        = some (0, List.replicate 4096 7 ++ [])
     ∧ (List.replicate 4096 (7 : Nat)).length = 4096)
  ∧ spi_upload (S.mk (Chip.mk (fun _ => 170) (fun _ => 0) true 0 0) none false 0
        (48 :: 13 :: (List.replicate 4096 7 ++ [])) [] [])
      = some (S.mk (Chip.mk (upMem (fun _ => 170) 32 0 (List.replicate 4096 7))
            (fun _ => 0) false 0 0) none false 0 []
          ([] ++ 71 :: (List.replicate 32 46 ++ doneStr))
          ([] ++ stFrameTr true 0 ++ upTr 0 (0 - 1) 32 0 (List.replicate 4096 7))) :=
  ⟨⟨rfl, List.length_replicate 4096 7⟩,
   (claim_C6 (fun _ => 170) (fun _ => 0) 0 0 false 0
     (48 :: 13 :: (List.replicate 4096 7 ++ []))
     (List.replicate 4096 7) [] [] [] 0 rfl (List.length_replicate 4096 7)).1⟩

/-- C10: when the transfer protocol reports failure during the bulk dump,
prom_send returns immediately without powering the chip off and without
closing the session.  If session init fails, it returns with only the
failed-init event traced, the power pin untouched.  If the j-th block
send fails, the run ends exactly at the failed send: the power-enable
pin is still asserted at return, and no power-off event and no
session-close event occur anywhere in the trace, unlike the
normal-completion path. -/
theorem claim_C10 :
    (∀ (so : Nat → Bool) (ch : Chip) (pw : Bool) (db : Nat) (inp out : List Nat)
       (tr : List Ev),
       prom_send false so (S.mk ch none pw db inp out tr)
         = S.mk ch none pw db inp out (tr ++ [Ev.xmInit false]))
  ∧ (∀ (m ib : Nat → Nat) (w : Bool) (b d : Nat) (pw : Bool) (db : Nat)
       (inp out : List Nat) (so : Nat → Bool) (j : Nat), j < 65536 →
       (∀ k, k < j → so (chunk_size * k) = true) → so (chunk_size * j) = false →
       prom_send true so (S.mk (Chip.mk m ib w b d) none pw db inp out [])
         = S.mk (Chip.mk m ib w b d) none true db inp out
             ([Ev.xmInit true, Ev.pow true] ++ promTr m j 0
              ++ readFrameTr m (chunk_size * j) chunk_size
              ++ [Ev.xmSend (readOut m (chunk_size * j) chunk_size) false])
       ∧ (prom_send true so (S.mk (Chip.mk m ib w b d) none pw db inp out [])).pow = true
       ∧ Ev.pow false ∉ (prom_send true so (S.mk (Chip.mk m ib w b d) none pw db inp out [])).tr
       ∧ Ev.xmFini ∉ (prom_send true so (S.mk (Chip.mk m ib w b d) none pw db inp out [])).tr) := by
  constructor
  · intro so ch pw db inp out tr
    exact prom_send_run_none false so ch pw db inp out tr rfl
  · intro m ib w b d pw db inp out so j hj hok hfail
    have hrun := prom_send_run_fail m ib w b d pw db inp out [] so j hj hok hfail
    simp only [List.nil_append] at hrun
    refine ⟨hrun, by rw [hrun], ?_, ?_⟩
    · rw [hrun]
      simp only [S.mk.injEq]
      intro hcon
      simp only [List.append_assoc, List.mem_append, List.mem_cons, List.mem_singleton,
        List.not_mem_nil] at hcon
      rcases hcon with hcon | hcon | hcon | hcon
      · cases hcon
        · exact absurd (by assumption) (by simp)
        · simp_all
      · exact pow_false_not_mem_promTr m j 0 hcon
      · exact pow_false_not_mem_readFrameTr m (chunk_size * j) chunk_size hcon
      · simp_all
    · rw [hrun]
      simp only [S.mk.injEq]
      intro hcon
      simp only [List.append_assoc, List.mem_append, List.mem_cons, List.mem_singleton,
        List.not_mem_nil] at hcon
      rcases hcon with hcon | hcon | hcon | hcon
      · cases hcon
        · exact absurd (by assumption) (by simp)
        · simp_all
      · exact xmFini_not_mem_promTr m j 0 hcon
      · exact xmFini_not_mem_readFrameTr m (chunk_size * j) chunk_size hcon
      · simp_all

/-- Witness for C10: every block send fails, so the first send (j = 0)
aborts the dump. -/
theorem wit_C10 :
    ((0 : Nat) < 65536 ∧ (fun _ => false : Nat → Bool) (chunk_size * 0) = false)
  ∧ prom_send true (fun _ => false)
      (S.mk (Chip.mk (fun _ => 255) (fun _ => 0) false 0 0) none false 0 [] [] [])
      = S.mk (Chip.mk (fun _ => 255) (fun _ => 0) false 0 0) none true 0 [] []
          ([Ev.xmInit true, Ev.pow true] ++ promTr (fun _ => 255) 0 0
           ++ readFrameTr (fun _ => 255) (chunk_size * 0) chunk_size
           ++ [Ev.xmSend (readOut (fun _ => 255) (chunk_size * 0) chunk_size) false]) :=
  ⟨⟨by decide, rfl⟩,
   (claim_C10.2 (fun _ => 255) (fun _ => 0) false 0 0 false 0 [] [] (fun _ => false) 0
     (by decide) (fun k hk => absurd hk (by omega)) rfl).1⟩

/-- C8: chip-select discipline: starting from any well-framed state (no
frame open, trace balanced), every completed operation - identify, write
enable, read, erase, upload, the bulk dump with any protocol outcomes,
and a full dispatcher step - returns a well-framed state: chip-select is
never asserted while another frame is open, and every opened frame is
closed before the operation returns. -/
theorem claim_C8 :
    (∀ s, csOkS s → csOkS (spi_rdid s))
  ∧ (∀ s, csOkS s → csOkS (spi_write_enable s))
  ∧ (∀ s s', csOkS s → spi_read s = some s' → csOkS s')
  ∧ (∀ s s', csOkS s → spi_erase_sector s = some s' → csOkS s')
  ∧ (∀ s s', csOkS s → spi_upload s = some s' → csOkS s')
  ∧ (∀ (io : Bool) (so : Nat → Bool) s, csOkS s → csOkS (prom_send io so s))
  ∧ (∀ (io : Bool) (so : Nat → Bool) s s', csOkS s → mainStep io so s = some s' → csOkS s') :=
  ⟨csP_rdid, csP_wren, csP_read, csP_erase, csP_upload, csP_prom, csP_mainStep⟩

/-- Witness for C8: the identify command run from a fresh state. -/
theorem wit_C8 :
    csOkS (S.mk (Chip.mk (fun _ => 255) (fun _ => 0) false 0 0) none false 0 [] [] [])
  ∧ csOkS (spi_rdid (S.mk (Chip.mk (fun _ => 255) (fun _ => 0) false 0 0) none false 0
      [] [] [])) :=
  ⟨⟨rfl, rfl⟩,
   claim_C8.1 (S.mk (Chip.mk (fun _ => 255) (fun _ => 0) false 0 0) none false 0 [] [] [])
     ⟨rfl, rfl⟩⟩
